import Mathlib

/-!
Verification development for the `chain_reaction.dataframe_toolkit` package:
a shallow embedding of the identifier scheme, the metadata model, the
registry/context pair, the persistence and reconstruction algorithm, and the
SQL validation layer, together with theorems settling the specification
claims about them.

Modelling conventions:
* Python dicts are modelled as insertion-ordered association lists with
  overwrite-on-duplicate-key semantics (`dictInsert` / `dictOfList`).
* Python floats appearing in column statistics are modelled as rationals
  plus an explicit NaN constructor; no float arithmetic happens in the
  embedded code, only comparisons, which `math.isclose` defines exactly.
* Polars dataframes carry, per column, the `ColumnSummary` statistics that
  `ColumnSummary.from_series` would compute for that column (the statistics
  themselves are computed by polars, outside the embedded code).
* Exceptions are modelled as `Except` / an `Option` error component; the
  structured payload of every error is carried by the `Err` constructors,
  while human-readable message strings are not modelled.
-/

/-! ### Values of column statistics (persistence.py value model) -/

/-- A Python float as it appears in column statistics: NaN or a numeric
value (modelled as a rational). -/
inductive PyFloat where
  | nan : PyFloat
  | val (q : ℚ) : PyFloat
deriving DecidableEq, Repr

/-- A value of an approximate statistics field: `float | str | None` in the
Python type annotations of `ColumnSummary`. -/
inductive PyVal where
  | none : PyVal
  | str (s : String) : PyVal
  | num (f : PyFloat) : PyVal
deriving DecidableEq, Repr

/-- Default relative tolerance used by `_validate_dataframe_matches_reference`
(`rel_tol: float = 1e-9`). -/
def RelTolDefault : ℚ := 1 / 1000000000

/-- Embeds `_floats_nearly_equal` from persistence.py: NaN equals NaN, NaN
never equals a number, and numbers are compared with `math.isclose(actual,
expected, rel_tol=rel_tol)`, whose documented meaning with the default
`abs_tol=0.0` is `abs(a-b) <= max(rel_tol * max(abs(a), abs(b)), 0.0)`. -/
def floatsNearlyEqual (actual expected : PyFloat) (relTol : ℚ) : Bool :=
  match actual, expected with
  | .nan, .nan => true
  | .nan, .val _ => false
  | .val _, .nan => false
  | .val a, .val b => decide (|a - b| ≤ max (relTol * max |a| |b|) 0)

/-- Embeds `_values_nearly_equal` from persistence.py: None equals None,
None never equals a value, strings compare by equality, numbers via
`_floats_nearly_equal`, and a string/number type mismatch is unequal. -/
def valuesNearlyEqual (actual expected : PyVal) (relTol : ℚ) : Bool :=
  match actual, expected with
  | .none, .none => true
  | .none, _ => false
  | _, .none => false
  | .str a, .str b => a = b
  | .num a, .num b => floatsNearlyEqual a b relTol
  | _, _ => false

/-! ### ColumnSummary (models.py) -/

/-- Embeds the pydantic model `ColumnSummary`.  The `min`/`max` fields are
`float | str` in the source and the `mean`..`p75` fields are
`float | str | None`; all seven are represented uniformly as `PyVal`. -/
structure ColumnSummary where
  description : String
  dtype : String
  count : Int
  null_count : Int
  unique_count : Int
  min : PyVal
  max : PyVal
  mean : PyVal
  std : PyVal
  p25 : PyVal
  p50 : PyVal
  p75 : PyVal
deriving DecidableEq, Repr

/-- A value that can appear in the mismatch map produced by
`_compare_column_summaries`: the exact fields are a string (`dtype`) or an
int (the three counts), the approximate fields are `PyVal`s. -/
inductive FieldVal where
  | str (s : String) : FieldVal
  | int (n : Int) : FieldVal
  | pv (v : PyVal) : FieldVal
deriving DecidableEq, Repr

/-- One entry of the mismatch map for an exact field: present exactly when
the two values are not identical. -/
def exactEntry (f : String) (a e : FieldVal) : List (String × FieldVal × FieldVal) :=
  if a = e then [] else [(f, a, e)]

/-- One entry of the mismatch map for an approximate field: present exactly
when `_values_nearly_equal` rejects the pair. -/
def approxEntry (f : String) (a e : PyVal) (relTol : ℚ) :
    List (String × FieldVal × FieldVal) :=
  if valuesNearlyEqual a e relTol then [] else [(f, .pv a, .pv e)]

/-- Embeds `_compare_column_summaries`: the exact fields `dtype`, `count`,
`null_count`, `unique_count` are compared for identity and the approximate
fields `min`, `max`, `mean`, `std`, `p25`, `p50`, `p75` with
`_values_nearly_equal`; mismatching fields are collected, in source order,
as a map from field name to the `(actual, expected)` pair.  The
`description` field is not compared. -/
def compareColumnSummaries (actual expected : ColumnSummary) (relTol : ℚ) :
    List (String × FieldVal × FieldVal) :=
  exactEntry "dtype" (.str actual.dtype) (.str expected.dtype)
    ++ exactEntry "count" (.int actual.count) (.int expected.count)
    ++ exactEntry "null_count" (.int actual.null_count) (.int expected.null_count)
    ++ exactEntry "unique_count" (.int actual.unique_count) (.int expected.unique_count)
    ++ approxEntry "min" actual.min expected.min relTol
    ++ approxEntry "max" actual.max expected.max relTol
    ++ approxEntry "mean" actual.mean expected.mean relTol
    ++ approxEntry "std" actual.std expected.std relTol
    ++ approxEntry "p25" actual.p25 expected.p25 relTol
    ++ approxEntry "p50" actual.p50 expected.p50 relTol
    ++ approxEntry "p75" actual.p75 expected.p75 relTol

/-! ### Association-list dictionaries (model of Python dict) -/

/-- Whether `k` is a key of the association list `m` (`k in d` on a dict). -/
def containsKey (m : List (String × α)) (k : String) : Bool :=
  m.any (fun p => p.1 = k)

/-- Assignment `d[k] = v` on a dict: overwrites in place when the key is
present (keeping its position), appends otherwise. -/
def dictInsert (m : List (String × α)) (k : String) (v : α) : List (String × α) :=
  if containsKey m k then m.map (fun p => if p.1 = k then (k, v) else p)
  else m ++ [(k, v)]

/-- Builds a dict from a list of key-value pairs, first-insertion key order
with later values overwriting earlier ones, like a Python dict
comprehension. -/
def dictOfList (ps : List (String × α)) : List (String × α) :=
  ps.foldl (fun m p => dictInsert m p.1 p.2) []

/-! ### Identifier scheme (identifier.py) -/

/-- Whether a character is one of `0-9a-f` (a lowercase hexadecimal digit,
the character class of `DATAFRAME_ID_PATTERN`). -/
def isLowerHex (c : Char) : Bool :=
  (c.isDigit) || (97 ≤ c.toNat && c.toNat ≤ 102)

/-- Whether a character list is exactly `df_` followed by eight lowercase
hexadecimal digits. -/
def dfIdCore (cs : List Char) : Bool :=
  match cs with
  | 'd' :: 'f' :: '_' :: rest => rest.length = 8 && rest.all isLowerHex
  | _ => false

/-- Embeds `DATAFRAME_ID_PATTERN.match(s)` being a match, for the compiled
pattern `re.compile(r"^df_[0-9a-f]{8}$")`.  Python `re` semantics: without
`re.MULTILINE`, the anchor `$` matches at the end of the string or just
before a newline at the end of the string, so the pattern also accepts the
eleven-character id followed by one trailing `\n`. -/
def dfIdMatch (s : String) : Bool :=
  dfIdCore s.data || (dfIdCore s.data.dropLast && s.data.getLast? = some '\n')

/-- Embeds `validate_dataframe_id`: returns the value unchanged when the
pattern matches and raises `ValueError` otherwise. -/
def validate_dataframe_id (value : String) : Except Unit String :=
  if dfIdMatch value then .ok value else .error ()

/-- Written from the words of the specification claim, for comparison with
the source behaviour: the string is exactly the prefix `df_` followed by
eight lowercase hexadecimal characters. -/
def claimedIdShape (s : String) : Bool :=
  dfIdCore s.data

/-- Models Python `not s or not s.strip()`: the string is empty or contains
only whitespace. -/
def isBlank (s : String) : Bool := s.data.all Char.isWhitespace

/-- Models Python `str.lower()` (character-wise ASCII lowering, which is
all the identifiers of this system exercise). -/
def strToLower (s : String) : String := ⟨s.data.map Char.toLower⟩

/-- Models Python `str.upper()`. -/
def strToUpper (s : String) : String := ⟨s.data.map Char.toUpper⟩

/-! ### DataFrame model and DataFrameReference (models.py) -/

/-- Model of a polars DataFrame as seen by this package: its height and,
per column in order, the `ColumnSummary` statistics that
`ColumnSummary.from_series(df[col])` computes for that column (with no
description).  The statistics themselves are computed by polars outside the
embedded code, so they are data of the model. -/
structure DataFrame where
  height : Nat
  cols : List (String × ColumnSummary)
deriving DecidableEq, Repr

/-- The `columns` property of a DataFrame. -/
def DataFrame.columns (df : DataFrame) : List String :=
  df.cols.map (fun p => p.1)

/-- Embeds `ColumnSummary.from_series(series, description)` relative to the
stored statistics of the column: only the description field depends on the
argument (`description or ""`), every statistic is recomputed identically
from the same data. -/
def fromSeriesModel (stored : ColumnSummary) (description : Option String) : ColumnSummary :=
  { stored with description := description.getD "" }

/-- Embeds the pydantic model `DataFrameReference` (field for field). -/
structure DataFrameReference where
  id : String
  name : String
  description : String
  num_rows : Int
  num_columns : Int
  column_names : List String
  column_summaries : List (String × ColumnSummary)
  parent_ids : List String
  source_query : Option String
deriving DecidableEq, Repr

/-- Embeds the pydantic validation performed when a `DataFrameReference` is
constructed: the `id` and every element of `parent_ids` are validated
against `DATAFRAME_ID_PATTERN` (the `DataFrameId` annotated type), and
`source_query` has `min_length=1` when it is not None.  No validator
relates `parent_ids` to `source_query`. -/
def mkDataFrameReference (id name description : String) (num_rows num_columns : Int)
    (column_names : List String) (column_summaries : List (String × ColumnSummary))
    (parent_ids : List String) (source_query : Option String) :
    Except Unit DataFrameReference :=
  if !dfIdMatch id then .error ()
  else if !(parent_ids.all dfIdMatch) then .error ()
  else if source_query = some "" then .error ()
  else .ok {
    id := id, name := name, description := description,
    num_rows := num_rows, num_columns := num_columns,
    column_names := column_names, column_summaries := column_summaries,
    parent_ids := parent_ids, source_query := source_query }

/-- Embeds `DataFrameReference.from_dataframe`.  The generated id
(`generate_dataframe_id()`, random in the source) is an explicit argument. -/
def DataFrameReference.fromDataFrame (name : String) (df : DataFrame)
    (description : Option String) (column_descriptions : List (String × String))
    (parent_ids : List String) (source_query : Option String) (id : String) :
    DataFrameReference :=
  { id := id
    name := name
    description := description.getD ""
    num_rows := (df.height : Int)
    num_columns := (df.cols.length : Int)
    column_names := df.columns
    column_summaries :=
      df.cols.map (fun p => (p.1, fromSeriesModel p.2 (List.lookup p.1 column_descriptions)))
    parent_ids := parent_ids
    source_query := source_query }

/-! ### Errors raised by the embedded code

Each constructor stands for one `raise` site (or pydantic validation
failure) and carries the structured data that the message of the Python
exception interpolates. -/

/-- Structured model of the exceptions raised by context.py, registry.py,
toolkit.py and persistence.py. -/
inductive Err where
  /-- pydantic `validate_call` rejecting a `DataFrameId` argument. -/
  | invalidFrameId (id : String)
  /-- `DataFrameContext.register`: the frame id is already registered. -/
  | alreadyRegistered (id : String)
  /-- `KeyError` for an unregistered key. -/
  | keyError (key : String)
  /-- `register_dataframe`: the display name matches the id pattern. -/
  | nameMatchesIdPattern (name : String)
  /-- `register_dataframe`: a dataframe with this name already exists. -/
  | duplicateName (name : String)
  /-- `_normalize_dataframe_mapping`: id-shaped key not among base ids. -/
  | unknownId (key : String)
  /-- `_normalize_dataframe_mapping`: name key not among base names. -/
  | unknownName (key : String)
  /-- `restore_from_state`: base references with no supplied dataframe,
  as `(name, id)` pairs. -/
  | missingBases (pairs : List (String × String))
  /-- `_validate_dataframe_matches_reference`: shape mismatch, with the
  dataframe name and the expected and actual `(rows, cols)`. -/
  | shapeMismatch (name : String) (expected actual : Int × Int)
  /-- `_validate_dataframe_matches_reference`: column-name mismatch. -/
  | columnMismatch (name : String) (expected actual : List String)
  /-- `_validate_dataframe_matches_reference`: statistics mismatch for one
  column, with the mismatch map of `_compare_column_summaries`. -/
  | statsMismatch (name col : String) (mismatches : List (String × FieldVal × FieldVal))
  /-- `_sort_references_by_dependency_order`: cyclic dependencies
  (`graphlib.CycleError` wrapped into `ValueError`), with the ids the
  sorter could not order. -/
  | cyclicDependency (ids : List String)
  /-- `_reconstruct_dataframe`: a base reference reached the replay loop
  without being registered. -/
  | baseNotRegistered (name id : String)
  /-- `_reconstruct_dataframe`: parents missing at replay time, with the
  derivative name, the missing parent ids and the registered ids. -/
  | missingParents (name : String) (missing availableIds : List String)
  /-- `_execute_reconstruction_query`: the reference has no source query. -/
  | noSourceQuery (name : String)
  /-- `_execute_reconstruction_query`: SQL replay failed (any exception
  from `execute_sql`, wrapped), with the derivative name and the query. -/
  | sqlReconstructionFailed (name query : String)
  /-- `DataFrameContext.execute_sql`: empty or whitespace-only query. -/
  | emptyQuery
  /-- `DataFrameContext.execute_sql`: no dataframes registered. -/
  | noFramesRegistered
  /-- The embedded SQL engine (polars `SQLContext.execute`) failed. -/
  | engineFailure (msg : String)
deriving DecidableEq, Repr

/-! ### DataFrameContext (context.py) -/

/-- Embeds `DataFrameContext`: the internal `_frames` mapping and the set
of table names registered in the wrapped polars `SQLContext` (the two
stores that `register`/`unregister` must keep in lockstep). -/
structure DataFrameContext where
  frames : List (String × DataFrame)
  sqlTables : List String
deriving DecidableEq, Repr

/-- The empty context (`DataFrameContext()`). -/
def DataFrameContext.empty : DataFrameContext := { frames := [], sqlTables := [] }

/-- Embeds `DataFrameContext.register`: pydantic validates the id shape,
then an existing registration raises, then both stores are updated.  The
frame-type check (`TypeError`) is enforced by the Lean type of `df`. -/
def DataFrameContext.register (ctx : DataFrameContext) (frame_id : String)
    (df : DataFrame) : Except Err DataFrameContext :=
  if !dfIdMatch frame_id then .error (.invalidFrameId frame_id)
  else if containsKey ctx.frames frame_id then .error (.alreadyRegistered frame_id)
  else .ok { frames := ctx.frames ++ [(frame_id, df)],
             sqlTables := ctx.sqlTables ++ [frame_id] }

/-- Embeds `DataFrameContext.unregister` on a collection of frame ids: each
id in turn is checked for registration (raising `KeyError` when absent) and
then removed from the SQL context and from the frame mapping; the state
reached when an exception is raised is the mutated one. -/
def DataFrameContext.unregister (ctx : DataFrameContext) (frame_ids : List String) :
    DataFrameContext × Option Err :=
  match frame_ids with
  | [] => (ctx, none)
  | i :: rest =>
    if containsKey ctx.frames i then
      DataFrameContext.unregister
        { frames := ctx.frames.filter (fun p => p.1 ≠ i),
          sqlTables := ctx.sqlTables.filter (fun t => t ≠ i) } rest
    else (ctx, some (.keyError i))

/-- An abstract model of the polars SQL engine: from the registered frames
and a query it produces a dataframe or fails.  The engine is external to
the repository, so it is a parameter of the embedding. -/
abbrev SqlEngine := List (String × DataFrame) → String → Except String DataFrame

/-- Embeds `DataFrameContext.execute_sql`: an empty or whitespace-only
query raises, an empty registry raises, otherwise the embedded engine is
consulted. -/
def DataFrameContext.executeSql (engine : SqlEngine) (ctx : DataFrameContext)
    (query : String) : Except Err DataFrame :=
  if isBlank query then .error .emptyQuery
  else if ctx.frames = [] then .error .noFramesRegistered
  else
    match engine ctx.frames query with
    | .ok df => .ok df
    | .error msg => .error (.engineFailure msg)

/-! ### DataFrameRegistry (registry.py) and the toolkit facade (toolkit.py) -/

/-- Embeds `DataFrameRegistry`: the context and the reference map, updated
together. -/
structure DataFrameRegistry where
  context : DataFrameContext
  references : List (String × DataFrameReference)
deriving DecidableEq, Repr

/-- The empty registry (`DataFrameRegistry()`). -/
def DataFrameRegistry.empty : DataFrameRegistry :=
  { context := DataFrameContext.empty, references := [] }

/-- Embeds `DataFrameRegistry.register`: registers in the context, then
stores the reference under its id. -/
def DataFrameRegistry.register (rg : DataFrameRegistry) (ref : DataFrameReference)
    (df : DataFrame) : Except Err DataFrameRegistry :=
  match rg.context.register ref.id df with
  | .error e => .error e
  | .ok ctx2 => .ok { context := ctx2, references := dictInsert rg.references ref.id ref }

/-- One registration input of the toolkit: the arguments of one
`register_dataframe` call plus the id that `generate_dataframe_id()`
returns during that call. -/
structure RegItem where
  name : String
  df : DataFrame
  description : Option String
  column_descriptions : List (String × String)
  id : String
deriving Repr

/-- The base reference that `register_dataframe` builds for one input. -/
def RegItem.ref (it : RegItem) : DataFrameReference :=
  DataFrameReference.fromDataFrame it.name it.df it.description
    it.column_descriptions [] none it.id

/-- Embeds `DataFrameToolkit.register_dataframe`: rejects a name matching
the id pattern, rejects a duplicate name, builds the base reference with
`from_dataframe` and registers it. -/
def registerDataframe (rg : DataFrameRegistry) (it : RegItem) :
    Except Err (DataFrameReference × DataFrameRegistry) :=
  if dfIdMatch it.name then .error (.nameMatchesIdPattern it.name)
  else if rg.references.any (fun p => p.2.name = it.name) then
    .error (.duplicateName it.name)
  else
    match rg.register it.ref it.df with
    | .error e => .error e
    | .ok rg2 => .ok (it.ref, rg2)

/-- A sequence of `register_dataframe` calls on a toolkit, each with its
generated id. -/
def registerDataframesSeq (rg : DataFrameRegistry) : List RegItem → Except Err DataFrameRegistry
  | [] => .ok rg
  | it :: rest =>
    match registerDataframe rg it with
    | .error e => .error e
    | .ok (_, rg2) => registerDataframesSeq rg2 rest

/-- Embeds `DataFrameToolkit.export_state`: the serialisable state is the
list of registered references, in registration order. -/
def exportState (rg : DataFrameRegistry) : List DataFrameReference :=
  rg.references.map (fun p => p.2)

/-! ### Persistence and reconstruction (persistence.py) -/

/-- Loop body of `_normalize_dataframe_mapping`: id-shaped keys must be
known base ids, other keys must be known base names; accepted entries are
assigned into the id-keyed dict (a key supplied twice, for example under
both its name and its id, silently overwrites). -/
def normalizeGo (names_to_ids : List (String × String)) :
    List (String × DataFrame) → List (String × DataFrame) →
    Except Err (List (String × DataFrame))
  | [], acc => .ok acc
  | (key, df) :: rest, acc =>
    if dfIdMatch key then
      if (names_to_ids.map (fun p => p.2)).contains key then
        normalizeGo names_to_ids rest (dictInsert acc key df)
      else .error (.unknownId key)
    else
      match List.lookup key names_to_ids with
      | some i => normalizeGo names_to_ids rest (dictInsert acc i df)
      | none => .error (.unknownName key)

/-- Embeds `_normalize_dataframe_mapping`. -/
def normalizeDataframeMapping (dataframes : List (String × DataFrame))
    (names_to_ids : List (String × String)) : Except Err (List (String × DataFrame)) :=
  normalizeGo names_to_ids dataframes []

/-- Loop of `_validate_dataframe_matches_reference` over the columns: for
each column the summary is recomputed with `ColumnSummary.from_series` and
compared to the recorded one; a nonempty mismatch map raises. -/
def validateColumnSummaries (reference : DataFrameReference) :
    List (String × ColumnSummary) → Except Err Unit
  | [] => .ok ()
  | (col_name, stored) :: rest =>
    match List.lookup col_name reference.column_summaries with
    | none => .error (.keyError col_name)
    | some expected =>
      match compareColumnSummaries (fromSeriesModel stored none) expected RelTolDefault with
      | [] => validateColumnSummaries reference rest
      | m => .error (.statsMismatch reference.name col_name m)

/-- Embeds `_validate_dataframe_matches_reference` (with the default
`rel_tol=1e-9`, the only way the restoration path calls it): shape, then
column names, then per-column statistics. -/
def validateDataFrameMatchesReference (df : DataFrame) (reference : DataFrameReference) :
    Except Err Unit :=
  if ((df.height : Int), (df.cols.length : Int)) ≠ (reference.num_rows, reference.num_columns) then
    .error (.shapeMismatch reference.name (reference.num_rows, reference.num_columns)
      ((df.height : Int), (df.cols.length : Int)))
  else if df.columns ≠ reference.column_names then
    .error (.columnMismatch reference.name reference.column_names df.columns)
  else validateColumnSummaries reference df.cols

/-- Step 4 of `restore_from_state`: validate every normalized dataframe
against its reference, before anything is registered. -/
def validateAllBases (base_refs : List (String × DataFrameReference)) :
    List (String × DataFrame) → Option Err
  | [] => none
  | (i, df) :: rest =>
    match List.lookup i base_refs with
    | none => some (.keyError i)
    | some ref =>
      match validateDataFrameMatchesReference df ref with
      | .error e => some e
      | .ok _ => validateAllBases base_refs rest

/-- Step 5 of `restore_from_state`: register each validated base via
`_register_with_reference` (context first, then the reference map). -/
def registerBases (base_refs : List (String × DataFrameReference)) :
    List (String × DataFrame) → DataFrameContext → List (String × DataFrameReference) →
    (DataFrameContext × List (String × DataFrameReference)) × Option Err
  | [], ctx, refs => ((ctx, refs), none)
  | (i, df) :: rest, ctx, refs =>
    match List.lookup i base_refs with
    | none => ((ctx, refs), some (.keyError i))
    | some ref =>
      match ctx.register ref.id df with
      | .error e => ((ctx, refs), some e)
      | .ok ctx2 => registerBases base_refs rest ctx2 (dictInsert refs ref.id ref)

/-! #### Dependency ordering (`_sort_references_by_dependency_order`)

The source delegates to `graphlib.TopologicalSorter.static_order()`, which
is external library code; its documented contract (a topological order of
the graph mapping each node to its predecessors, `CycleError` when the
graph has a cycle) is modelled by an explicit Kahn-style algorithm.  Each
round emits every node all of whose recorded parents have already been
emitted; when no node can be emitted and nodes remain, the remaining node
ids are reported as the cyclic part. -/

/-- One graph entry is ready when none of its parents is still unemitted. -/
def kahnReady (keys : List String) (p : String × List String) : Bool :=
  p.2.all (fun q => !keys.contains q)

/-- The entries of the remaining graph that can be emitted in this round
(all their parents already emitted). -/
def kahnStepReady (remaining : List (String × List String)) :
    List (String × List String) :=
  remaining.filter (kahnReady (remaining.map (fun p => p.1)))

/-- The entries still blocked after this round. -/
def kahnStepRest (remaining : List (String × List String)) :
    List (String × List String) :=
  remaining.filter (fun p => !kahnReady (remaining.map (fun p => p.1)) p)

/-- Kahn-style topological sort, fuelled by the number of nodes. -/
def kahnAux : Nat → List (String × List String) → List String →
    Except (List String) (List String)
  | 0, remaining, acc =>
    if remaining.isEmpty then .ok acc else .error (remaining.map (fun p => p.1))
  | fuel + 1, remaining, acc =>
    if remaining.isEmpty then .ok acc
    else if (kahnStepReady remaining).isEmpty then
      .error (remaining.map (fun p => p.1))
    else
      kahnAux fuel (kahnStepRest remaining)
        (acc ++ (kahnStepReady remaining).map (fun p => p.1))

/-- Entry point of the modelled `TopologicalSorter.static_order`. -/
def kahnSort (g : List (String × List String)) : Except (List String) (List String) :=
  kahnAux g.length g []

/-- The dependency graph `_sort_references_by_dependency_order` builds:
each reference maps to those of its parents that are present in the
reference set (absent parents are filtered out here, not reported). -/
def buildGraph (references : List DataFrameReference) : List (String × List String) :=
  let refs_by_id := dictOfList (references.map (fun r => (r.id, r)))
  dictOfList (references.map (fun r =>
    (r.id, r.parent_ids.filter (fun p => containsKey refs_by_id p))))

/-- Embeds `_sort_references_by_dependency_order`: topologically sort the
ids and map them back through the reference dict; a `CycleError` becomes a
`ValueError` (here: the list of unorderable ids). -/
def sortReferencesByDependencyOrder (references : List DataFrameReference) :
    Except (List String) (List DataFrameReference) :=
  let refs_by_id := dictOfList (references.map (fun r => (r.id, r)))
  match kahnSort (buildGraph references) with
  | .error remainingIds => .error remainingIds
  | .ok sortedIds => .ok (sortedIds.filterMap (fun i => List.lookup i refs_by_id))

/-- Embeds `_execute_reconstruction_query`: a missing (or empty, which is
falsy) source query is a data-integrity fault; any exception from
`execute_sql` is wrapped into a `ValueError` naming the derivative and the
query. -/
def executeReconstructionQuery (engine : SqlEngine) (ref : DataFrameReference)
    (ctx : DataFrameContext) : Except Err DataFrame :=
  match ref.source_query with
  | none => .error (.noSourceQuery ref.name)
  | some q =>
    if q = "" then .error (.noSourceQuery ref.name)
    else
      match DataFrameContext.executeSql engine ctx q with
      | .ok df => .ok df
      | .error _ => .error (.sqlReconstructionFailed ref.name q)

/-- Embeds `_reconstruct_dataframe`: a base reference here means it was
never registered; all parents must already be registered; then the source
query is replayed. -/
def reconstructDataframe (engine : SqlEngine) (ref : DataFrameReference)
    (ctx : DataFrameContext) (references : List (String × DataFrameReference)) :
    Except Err DataFrame :=
  if ref.parent_ids = [] then .error (.baseNotRegistered ref.name ref.id)
  else
    match ref.parent_ids.filter (fun p => !containsKey references p) with
    | [] => executeReconstructionQuery engine ref ctx
    | missing => .error (.missingParents ref.name missing (references.map (fun p => p.1)))

/-- Loop of `_reconstruct_derivatives` over the sorted references:
already-registered references (the bases) are skipped; each remaining one
is replayed, validated against its recorded statistics and registered. -/
def replayLoop (engine : SqlEngine) : List DataFrameReference → DataFrameContext →
    List (String × DataFrameReference) →
    (DataFrameContext × List (String × DataFrameReference)) × Option Err
  | [], ctx, refs => ((ctx, refs), none)
  | ref :: rest, ctx, refs =>
    if containsKey refs ref.id then replayLoop engine rest ctx refs
    else
      match reconstructDataframe engine ref ctx refs with
      | .error e => ((ctx, refs), some e)
      | .ok df =>
        match validateDataFrameMatchesReference df ref with
        | .error e => ((ctx, refs), some e)
        | .ok _ =>
          match ctx.register ref.id df with
          | .error e => ((ctx, refs), some e)
          | .ok ctx2 => replayLoop engine rest ctx2 (dictInsert refs ref.id ref)

/-- Embeds `_reconstruct_derivatives`. -/
def reconstructDerivatives (engine : SqlEngine) (state : List DataFrameReference)
    (ctx : DataFrameContext) (refs : List (String × DataFrameReference)) :
    (DataFrameContext × List (String × DataFrameReference)) × Option Err :=
  match sortReferencesByDependencyOrder state with
  | .error remainingIds => ((ctx, refs), some (.cyclicDependency remainingIds))
  | .ok sorted => replayLoop engine sorted ctx refs

/-- The base references of a state (`parent_ids` empty), as an id-keyed
dict (step 1 of `restore_from_state`). -/
def baseRefsOf (state : List DataFrameReference) : List (String × DataFrameReference) :=
  dictOfList ((state.filter (fun r => r.parent_ids = [])).map (fun r => (r.id, r)))

/-- The base ids with no supplied dataframe (step 3 of
`restore_from_state`; the iteration order of the Python key-set difference
is modelled as insertion order). -/
def missingBaseIds (base_refs : List (String × DataFrameReference))
    (normalized : List (String × DataFrame)) : List String :=
  (base_refs.map (fun p => p.1)).filter (fun i => !containsKey normalized i)

/-- The `(name, id)` pairs reported for missing bases. -/
def missingBasePairs (base_refs : List (String × DataFrameReference))
    (normalized : List (String × DataFrame)) : List (String × String) :=
  (missingBaseIds base_refs normalized).map (fun i =>
    ((List.lookup i base_refs).elim "" (fun r => r.name), i))

/-- Steps 1-4 of `restore_from_state`: everything that happens before any
mutation of the context or the reference map.  Produces the normalized
id-keyed base mapping, or the first error raised. -/
def baseRestoreCheck (state : List DataFrameReference)
    (base_dataframes : List (String × DataFrame)) :
    Except Err (List (String × DataFrame)) :=
  let base_refs := baseRefsOf state
  match normalizeDataframeMapping base_dataframes
      (dictOfList (base_refs.map (fun p => (p.2.name, p.2.id)))) with
  | .error e => .error e
  | .ok normalized =>
    if missingBaseIds base_refs normalized = [] then
      match validateAllBases base_refs normalized with
      | some e => .error e
      | none => .ok normalized
    else .error (.missingBases (missingBasePairs base_refs normalized))

/-- Embeds `restore_from_state`: the pure checking phase (steps 1-4), then
registration of the bases (step 5), then derivative reconstruction (step
6).  The returned pair is the final state of the mutated-in-place context
and reference map, together with the exception raised, if any. -/
def restoreFromState (engine : SqlEngine) (state : List DataFrameReference)
    (base_dataframes : List (String × DataFrame)) (context : DataFrameContext)
    (references : List (String × DataFrameReference)) :
    (DataFrameContext × List (String × DataFrameReference)) × Option Err :=
  match baseRestoreCheck state base_dataframes with
  | .error e => ((context, references), some e)
  | .ok normalized =>
    match registerBases (baseRefsOf state) normalized context references with
    | ((ctx2, refs2), some e) => ((ctx2, refs2), some e)
    | ((ctx2, refs2), none) => reconstructDerivatives engine state ctx2 refs2

/-! ### SQL validation layer (sql_utils.py)

The sqlglot parser is external library code; the embedding works at the
level of its output, a parsed expression with logical scopes: a SELECT
carries its CTEs, its from/join sources and the column references that
occur directly in its own scope.  `build_scope` semantics for this
fragment: a from-source whose table name is a CTE alias visible at that
point (from this query's WITH clause, an earlier CTE of the same WITH
clause, or an enclosing query) resolves to the CTE's scope rather than to
an `exp.Table`, and a derived subquery source is likewise a scope; only
`exp.Table` sources count as real tables. -/

/-- A column reference as sqlglot reports it: an optional qualifier (table
name or alias; empty when unqualified) and the column name. -/
structure SqlColumn where
  qualifier : String
  name : String
deriving DecidableEq, Repr

mutual

/-- A parsed query (one scope): CTEs, from/join sources, and the column
references appearing directly in this scope. -/
inductive SqlQuery where
  | select (ctes : SqlCtes) (sources : SqlSources) (columns : List SqlColumn)

/-- The WITH clause: an ordered list of named CTEs (each visible to the
later ones and to the query body). -/
inductive SqlCtes where
  | nil
  | cons (cteName : String) (q : SqlQuery) (rest : SqlCtes)

/-- The from/join sources of one scope. -/
inductive SqlSources where
  | nil
  | cons (s : SqlSource) (rest : SqlSources)

/-- One from/join source: a named table (with its alias, which sqlglot
defaults to the table name) or a derived subquery with an alias. -/
inductive SqlSource where
  | table (tableName : String) (srcAlias : String)
  | derived (q : SqlQuery) (srcAlias : String)

end

/-- The names introduced by a WITH clause. -/
def cteNames : SqlCtes → List String
  | .nil => []
  | .cons a _ rest => a :: cteNames rest

mutual

/-- Embeds `_extract_table_names` over one scope and its subscopes: the
lower-cased names of the `exp.Table` sources, in traversal order; sources
resolving to a visible CTE or to a derived subquery are excluded. -/
def tablesOfQuery : SqlQuery → List String → List String
  | .select ctes sources _, visible =>
    tablesOfCtes ctes visible ++ tablesOfSources sources (visible ++ cteNames ctes)

/-- Table extraction inside the CTE scopes: each CTE sees the outer
visible names plus the earlier CTEs of the same WITH clause. -/
def tablesOfCtes : SqlCtes → List String → List String
  | .nil, _ => []
  | .cons a q rest, visible => tablesOfQuery q visible ++ tablesOfCtes rest (visible ++ [a])

/-- Table extraction over the sources of one scope. -/
def tablesOfSources : SqlSources → List String → List String
  | .nil, _ => []
  | .cons (.table n _) rest, visible =>
    (if visible.contains n then [] else [strToLower n]) ++ tablesOfSources rest visible
  | .cons (.derived q _) rest, visible =>
    tablesOfQuery q visible ++ tablesOfSources rest visible

end

/-- Embeds `_extract_table_names` on a full parsed expression. -/
def extractTableNames (q : SqlQuery) : List String :=
  tablesOfQuery q []

/-- Structured model of the SQL-layer exceptions of exceptions.py. -/
inductive SqlError where
  /-- `SQLSyntaxError`, with its structured sub-error list. -/
  | syntaxError (errs : List (String × Int × Int × String × String × String))
  /-- `SQLBlacklistedCommandError{command_type, blacklist}`. -/
  | blacklistedCommand (command_type : String) (blacklist : List String)
  /-- `SQLTableError{invalid_tables}`. -/
  | tableError (invalid_tables : List String)
  /-- `SQLColumnError{invalid_columns}` (grouped by table). -/
  | columnError (invalid_columns : List (String × List String))
deriving DecidableEq, Repr

/-- Code-point lexicographic order on character lists (the order Python
`sorted` uses on strings). -/
def lexLe : List Char → List Char → Bool
  | [], _ => true
  | _ :: _, [] => false
  | c :: cs, d :: ds =>
    if c.toNat < d.toNat then true
    else if d.toNat < c.toNat then false
    else lexLe cs ds

/-- Lexicographic order on strings. -/
def strLeB (a b : String) : Bool := lexLe a.data b.data

/-- Insertion into a sorted list of strings. -/
def insertSorted (a : String) : List String → List String
  | [] => [a]
  | b :: rest => if strLeB a b then a :: b :: rest else b :: insertSorted a rest

/-- Insertion sort on strings. -/
def sortStrings (l : List String) : List String := l.foldr insertSorted []

/-- Models Python `sorted(set(xs))`. -/
def sortedDedup (l : List String) : List String := sortStrings l.dedup

/-- Embeds `validate_sql_tables` on a parsed expression: extract the
referenced real tables; no referenced table at all raises `SQLTableError`
with an empty `invalid_tables`; referenced tables outside the (lower-cased)
valid set raise `SQLTableError` listing them sorted and deduplicated. -/
def validateSqlTables (query : SqlQuery) (valid_tables : List String) :
    Except SqlError Unit :=
  let referenced := extractTableNames query
  if referenced = [] then .error (.tableError [])
  else
    let normValid := valid_tables.map strToLower
    match sortedDedup (referenced.filter (fun t => !normValid.contains t)) with
    | [] => .ok ()
    | invalid => .error (.tableError invalid)

/-- Alias-to-base-table map of one scope (`_build_alias_to_table_map`):
only `exp.Table` sources contribute, keyed by lower-cased alias with
lower-cased table name as value. -/
def aliasMapGo (visible : List String) : SqlSources → List (String × String) →
    List (String × String)
  | .nil, acc => acc
  | .cons (.table n a) rest, acc =>
    if visible.contains n then aliasMapGo visible rest acc
    else aliasMapGo visible rest (dictInsert acc (strToLower a) (strToLower n))
  | .cons (.derived _ _) rest, acc => aliasMapGo visible rest acc

/-- The alias map of a scope with the given visible CTE names. -/
def aliasMapOfSources (sources : SqlSources) (visible : List String) :
    List (String × String) :=
  aliasMapGo visible sources []

/-- Embeds `_resolve_column_to_base_table`: a qualified column resolves
through the alias map; an unqualified column resolves only when the alias
map holds exactly one value. -/
def resolveColumnToBaseTable (c : SqlColumn) (aliasToTable : List (String × String)) :
    Option String :=
  if c.qualifier ≠ "" then List.lookup (strToLower c.qualifier) aliasToTable
  else
    match aliasToTable.map (fun p => p.2) with
    | [b] => some b
    | _ => none

/-- The violation one column reference contributes, if any: the column must
resolve to a base table present in the normalized schema and be absent from
that table's column set (`_validate_column_in_scope` without the dict
mutation). -/
def columnViolation (c : SqlColumn) (aliasToTable : List (String × String))
    (schema : List (String × List String)) : Option (String × String) :=
  match resolveColumnToBaseTable c aliasToTable with
  | none => none
  | some baseTable =>
    match List.lookup baseTable schema with
    | none => none
    | some cols =>
      if cols.contains (strToLower c.name) then none
      else some (baseTable, strToLower c.name)

/-- The dict mutation of `_validate_column_in_scope`: appends the column to
its table's list unless already recorded. -/
def addInvalid : List (String × List String) → String → String →
    List (String × List String)
  | [], t, c => [(t, [c])]
  | (k, cs) :: rest, t, c =>
    if k = t then (if cs.contains c then (k, cs) :: rest else (k, cs ++ [c]) :: rest)
    else (k, cs) :: addInvalid rest t c

mutual

/-- The violations of a query and its subscopes, in traversal order, as a
flat list of `(table, column)` pairs (each scope validates its own column
references against its own alias map). -/
def violationsQuery : SqlQuery → List String → List (String × List String) →
    List (String × String)
  | .select ctes sources cols, visible, schema =>
    violationsCtes ctes visible schema
      ++ cols.filterMap
        (fun c => columnViolation c (aliasMapOfSources sources (visible ++ cteNames ctes)) schema)
      ++ violationsSources sources (visible ++ cteNames ctes) schema

/-- Violations inside the CTE scopes. -/
def violationsCtes : SqlCtes → List String → List (String × List String) →
    List (String × String)
  | .nil, _, _ => []
  | .cons a q rest, visible, schema =>
    violationsQuery q visible schema ++ violationsCtes rest (visible ++ [a]) schema

/-- Violations inside derived-subquery scopes. -/
def violationsSources : SqlSources → List String → List (String × List String) →
    List (String × String)
  | .nil, _, _ => []
  | .cons (.table _ _) rest, visible, schema => violationsSources rest visible schema
  | .cons (.derived q _) rest, visible, schema =>
    violationsQuery q visible schema ++ violationsSources rest visible schema

end

/-- Embeds `_collect_invalid_columns`: the violations encountered during
the scope traversal, accumulated into the table-keyed dict exactly as
`_validate_column_in_scope` mutates it. -/
def collectInvalidColumns (q : SqlQuery) (schema : List (String × List String)) :
    List (String × List String) :=
  (violationsQuery q [] schema).foldl (fun a p => addInvalid a p.1 p.2) []

/-- The lower-cased schema (`normalized_schema` of `validate_sql_columns`). -/
def normalizeSchema (table_columns : List (String × List String)) :
    List (String × List String) :=
  dictOfList (table_columns.map (fun p => (strToLower p.1, p.2.map strToLower)))

/-- Embeds `validate_sql_columns` on a parsed expression. -/
def validateSqlColumns (query : SqlQuery) (table_columns : List (String × List String)) :
    Except SqlError Unit :=
  match collectInvalidColumns query (normalizeSchema table_columns) with
  | [] => .ok ()
  | invalid => .error (.columnError invalid)

/-! ### parse_sql (sql_utils.py) -/

/-- The top-level expression types that `_EXPRESSION_TYPE_MAP` recognises
(`type(expression)` of the sqlglot parse result), plus a catch-all for
every other expression type. -/
inductive SqlExprType where
  | selectE | deleteE | insertE | updateE | dropE | createE
  | truncateTableE | alterE | unionE | intersectE | exceptE
  | otherE
deriving DecidableEq, Repr

/-- Embeds `_get_sql_command_type` via `_EXPRESSION_TYPE_MAP`: the set
operations Union, Intersect and Except are considered SELECT queries;
unrecognised expression types map to None. -/
def commandTypeOf : SqlExprType → Option String
  | .selectE => some "SELECT"
  | .deleteE => some "DELETE"
  | .insertE => some "INSERT"
  | .updateE => some "UPDATE"
  | .dropE => some "DROP"
  | .createE => some "CREATE"
  | .truncateTableE => some "TRUNCATE"
  | .alterE => some "ALTER"
  | .unionE => some "SELECT"
  | .intersectE => some "SELECT"
  | .exceptE => some "SELECT"
  | .otherE => none

/-- One raw parse error as sqlglot reports it: a dict whose six interesting
entries may each be absent (`error_dict.get(..., default)` in the source). -/
structure RawParseErr where
  description : Option String
  line : Option Int
  col : Option Int
  start_context : Option String
  highlight : Option String
  end_context : Option String
deriving DecidableEq, Repr

/-- The structured sub-error `ParseErrorDict` built by `parse_sql`, with
the defaults the source supplies for absent entries. -/
def toParseErrorDict (e : RawParseErr) : String × Int × Int × String × String × String :=
  (e.description.getD "", e.line.getD 0, e.col.getD 0,
   e.start_context.getD "", e.highlight.getD "", e.end_context.getD "")

/-- An abstract model of `sqlglot.parse_one` (external library code): from
the query text it produces the top-level expression type or a list of raw
parse errors.  The dialect argument is part of the abstracted function. -/
abbrev ParseFn := String → Except (List RawParseErr) SqlExprType

/-- Embeds `parse_sql`: an empty or whitespace-only query raises
`SQLSyntaxError` with no sub-errors; a parser failure raises
`SQLSyntaxError` carrying the structured sub-errors; then, when a nonempty
blacklist is supplied and the detected command type is in it
(case-insensitively), `SQLBlacklistedCommandError` is raised carrying the
command type and the normalized (upper-cased) blacklist. -/
def parseSql (parseFn : ParseFn) (query : String) (blacklist : Option (List String)) :
    Except SqlError SqlExprType :=
  if isBlank query then .error (.syntaxError [])
  else
    match parseFn query with
    | .error es => .error (.syntaxError (es.map toParseErrorDict))
    | .ok e =>
      match blacklist with
      | none => .ok e
      | some bl =>
        if bl = [] then .ok e
        else
          match commandTypeOf e with
          | none => .ok e
          | some ct =>
            if (bl.map strToUpper).contains (strToUpper ct) then
              .error (.blacklistedCommand ct (bl.map strToUpper))
            else .ok e

/-! ### Theorems: identifier validation (C9) -/

/-- The underlying list of an appended string. -/
theorem strData_append (a b : String) : (a ++ b).data = a.data ++ b.data :=
  String.data_append ..

/-- Claim C9 (amended): id validation succeeds exactly for the strings that
are `df_` followed by eight lowercase hexadecimal characters, either alone
or followed by one trailing newline; the trailing-newline strings are
accepted because the Python anchor `$` of `^df_[0-9a-f]{8}$` also matches
just before a final newline. -/
theorem claim_C9_validate_id (s : String) :
    (∃ v, validate_dataframe_id s = .ok v) ↔
      ∃ core : String, claimedIdShape core = true ∧ (s = core ∨ s = core ++ "\n") := by
  constructor
  · rintro ⟨v, hv⟩
    unfold validate_dataframe_id at hv
    split at hv
    case isTrue h =>
      unfold dfIdMatch at h
      rcases (Bool.or_eq_true _ _).mp h with h1 | h2
      · exact ⟨s, h1, Or.inl rfl⟩
      · obtain ⟨hc, hl⟩ := (Bool.and_eq_true _ _).mp h2
        have hl2 : s.data.getLast? = some '\n' := of_decide_eq_true hl
        have hne : s.data ≠ [] := by
          intro h0
          rw [h0] at hl2
          simp at hl2
        have hg : s.data.getLast hne = '\n' := by
          have := List.getLast?_eq_getLast s.data hne
          rw [this] at hl2
          exact Option.some.inj hl2
        refine ⟨⟨s.data.dropLast⟩, hc, Or.inr ?_⟩
        apply String.ext
        rw [strData_append]
        show s.data = s.data.dropLast ++ "\n".data
        have hnl : "\n".data = ['\n'] := rfl
        rw [hnl, ← hg, List.dropLast_append_getLast hne]
    case isFalse => exact absurd hv (by simp)
  · rintro ⟨core, hc, hs | hs⟩
    · refine ⟨s, ?_⟩
      unfold validate_dataframe_id
      have : dfIdMatch s = true := by
        unfold dfIdMatch
        apply (Bool.or_eq_true _ _).mpr
        left
        rw [hs]
        exact hc
      simp [this]
    · refine ⟨s, ?_⟩
      unfold validate_dataframe_id
      have hd : s.data = core.data ++ ['\n'] := by
        rw [hs, strData_append]
      have : dfIdMatch s = true := by
        unfold dfIdMatch
        apply (Bool.or_eq_true _ _).mpr
        right
        apply (Bool.and_eq_true _ _).mpr
        constructor
        · rw [hd]
          simpa using hc
        · rw [hd]
          simp
      simp [this]

/-- Claim C9 counterexample: the string `df_1a2b3c4d` followed by a newline
is accepted by `validate_dataframe_id`, yet it is not exactly the prefix
`df_` followed by eight lowercase hexadecimal characters. -/
theorem claim_C9_counterexample :
    validate_dataframe_id "df_1a2b3c4d\n" = .ok "df_1a2b3c4d\n" ∧
      claimedIdShape "df_1a2b3c4d\n" = false :=
  ⟨rfl, by decide⟩

/-! ### Theorems: the base/derivative biconditional (C5) -/

/-- Claim C5 counterexample: the `DataFrameReference` model admits a
reference with empty `parent_ids` and a non-null `source_query`; pydantic
validates only the id shapes and the nonemptiness of the query string, no
validator relates the two fields. -/
theorem claim_C5_counterexample :
    ∃ r, mkDataFrameReference "df_00000001" "quarterly" "" 0 0 [] [] []
        (some "SELECT 1") = .ok r
      ∧ r.parent_ids = [] ∧ r.source_query ≠ none := by
  refine ⟨_, rfl, rfl, ?_⟩
  decide

/-- Claim C5 (amended): `register_dataframe` produces only base references
satisfying the biconditional (empty `parent_ids` and null `source_query`),
but the reference model itself does not enforce the biconditional, as the
counterexample shows. -/
theorem claim_C5_register_invariant (rg : DataFrameRegistry) (it : RegItem)
    (ref : DataFrameReference) (rg2 : DataFrameRegistry)
    (h : registerDataframe rg it = .ok (ref, rg2)) :
    ref.parent_ids = [] ∧ ref.source_query = none ∧
      (ref.parent_ids = [] ↔ ref.source_query = none) := by
  unfold registerDataframe at h
  split at h
  · exact absurd h (by simp)
  · split at h
    · exact absurd h (by simp)
    · unfold DataFrameRegistry.register at h
      split at h
      · exact absurd h (by simp)
      · have : ref = it.ref := by
          simp only [Except.ok.injEq, Prod.mk.injEq] at h
          exact h.1.symm
        subst this
        exact ⟨rfl, rfl, iff_of_true rfl rfl⟩

/-! ### Theorems: unregister is not atomic (C10) -/

/-- Filtering out the entries keyed `a` does not change whether a different
key `p` is present. -/
theorem containsKey_filter_ne (l : List (String × α)) (a p : String) (hne : p ≠ a) :
    containsKey (l.filter (fun q => q.1 ≠ a)) p = containsKey l p := by
  unfold containsKey
  rw [List.any_filter]
  congr 1
  funext x
  by_cases hx : x.1 = p
  · simp [hx, hne]
  · simp [hx]

/-- Claim C10: `DataFrameContext.unregister` over a collection of frame ids
is not atomic: when the first `k` ids (pairwise distinct) are registered
and the next id is not, the call raises `KeyError` for that id after having
already removed exactly the first `k` ids from both the frame map and the
SQL context, leaving the remaining frames intact. -/
theorem claim_C10_unregister_not_atomic (ctx : DataFrameContext) (pre : List String)
    (i : String) (post : List String) (hnd : pre.Nodup)
    (hpre : ∀ p ∈ pre, containsKey ctx.frames p = true)
    (hi : containsKey ctx.frames i = false) :
    DataFrameContext.unregister ctx (pre ++ i :: post) =
      ({ frames := ctx.frames.filter (fun p => !pre.contains p.1),
         sqlTables := ctx.sqlTables.filter (fun t => !pre.contains t) },
       some (.keyError i)) := by
  induction pre generalizing ctx with
  | nil =>
    simp only [List.nil_append]
    unfold DataFrameContext.unregister
    simp [hi]
  | cons a rest ih =>
    have ha : containsKey ctx.frames a = true := hpre a (by simp)
    have hia : i ≠ a := by
      intro h
      rw [h] at hi
      rw [hi] at ha
      exact Bool.false_ne_true ha
    simp only [List.cons_append]
    unfold DataFrameContext.unregister
    rw [if_pos ha]
    rw [ih]
    · congr 1
      congr 1
      · rw [List.filter_filter]
        apply List.filter_congr
        intro x _
        simp [List.contains_cons, Bool.not_or, decide_not, Bool.and_comm]
      · rw [List.filter_filter]
        apply List.filter_congr
        intro x _
        simp [List.contains_cons, Bool.not_or, decide_not, Bool.and_comm]
    · exact hnd.of_cons
    · intro p hp
      have hpa : p ≠ a := by
        intro h
        subst h
        exact (List.nodup_cons.mp hnd).1 hp
      rw [containsKey_filter_ne _ _ _ hpa]
      exact hpre p (List.mem_cons_of_mem _ hp)
    · rw [containsKey_filter_ne _ _ _ hia]
      exact hi

/-- An empty dataframe used by the concrete witnesses. -/
def dfEmptyModel : DataFrame := { height := 0, cols := [] }

/-- A context holding two registered frames, used by the C10 witness. -/
def ctxPairModel : DataFrameContext :=
  { frames := [("df_00000001", dfEmptyModel), ("df_00000002", dfEmptyModel)],
    sqlTables := ["df_00000001", "df_00000002"] }

/-- Claim C10 witness: unregistering `df_00000001` then the unknown
`df_00000003` raises `KeyError` with the first frame already gone from both
stores and the second frame intact. -/
theorem claim_C10_witness :
    DataFrameContext.unregister ctxPairModel (["df_00000001"] ++ "df_00000003" :: []) =
      ({ frames := [("df_00000002", dfEmptyModel)], sqlTables := ["df_00000002"] },
       some (.keyError "df_00000003")) :=
  claim_C10_unregister_not_atomic ctxPairModel ["df_00000001"] "df_00000003" []
    (by decide) (by decide) (by decide)

/-- A registration input used by concrete witnesses. -/
def itemSalesModel : RegItem :=
  { name := "sales", df := dfEmptyModel, description := none,
    column_descriptions := [], id := "df_00000001" }

/-- The registry after registering `itemSalesModel` into an empty toolkit. -/
def rgSalesModel : DataFrameRegistry :=
  { context := { frames := [("df_00000001", dfEmptyModel)], sqlTables := ["df_00000001"] },
    references := [("df_00000001", RegItem.ref itemSalesModel)] }

/-- Claim C5 witness: a concrete successful `register_dataframe` call whose
produced reference satisfies the base/derivative biconditional. -/
theorem claim_C5_witness :
    (RegItem.ref itemSalesModel).parent_ids = [] ∧
      (RegItem.ref itemSalesModel).source_query = none ∧
      ((RegItem.ref itemSalesModel).parent_ids = [] ↔
        (RegItem.ref itemSalesModel).source_query = none) :=
  claim_C5_register_invariant DataFrameRegistry.empty itemSalesModel
    (RegItem.ref itemSalesModel) rgSalesModel rfl

/-! ### Theorems: the statistics-equivalence comparison (C4) -/

/-- Membership in an exact-field entry. -/
theorem mem_exactEntry {g f : String} {x y a e : FieldVal} :
    (g, x, y) ∈ exactEntry f a e ↔ a ≠ e ∧ g = f ∧ x = a ∧ y = e := by
  unfold exactEntry
  split
  · simp [*]
  · simp [*]

/-- Membership in an approximate-field entry. -/
theorem mem_approxEntry {g f : String} {x y : FieldVal} {a e : PyVal} {t : ℚ} :
    (g, x, y) ∈ approxEntry f a e t ↔
      valuesNearlyEqual a e t = false ∧ g = f ∧ x = .pv a ∧ y = .pv e := by
  unfold approxEntry
  split
  · simp [*]
  · simp only [List.mem_singleton, Prod.mk.injEq]
    simp [*]

/-- The approximate-field equality notion, written from the words of the
specification: None equals None, NaN equals NaN, strings compare by
equality, numbers are equal within the relative tolerance, and a mismatch
of kinds (string against number, value against None or NaN) is unequal. -/
def ApproxEqualSpec (a e : PyVal) (relTol : ℚ) : Prop :=
  match a, e with
  | .none, .none => True
  | .str s, .str t => s = t
  | .num .nan, .num .nan => True
  | .num (.val x), .num (.val y) => |x - y| ≤ relTol * max |x| |y|
  | _, _ => False

/-- The comparator of the source agrees with the specification notion for
any nonnegative tolerance. -/
theorem valuesNearlyEqual_iff_spec (a e : PyVal) (relTol : ℚ) (ht : 0 ≤ relTol) :
    valuesNearlyEqual a e relTol = true ↔ ApproxEqualSpec a e relTol := by
  cases a with
  | none => cases e <;> simp [valuesNearlyEqual, ApproxEqualSpec]
  | str s =>
    cases e <;> simp [valuesNearlyEqual, ApproxEqualSpec]
  | num f =>
    cases e with
    | none => cases f <;> simp [valuesNearlyEqual, ApproxEqualSpec]
    | str t => cases f <;> simp [valuesNearlyEqual, ApproxEqualSpec]
    | num g =>
      cases f with
      | nan => cases g <;> simp [valuesNearlyEqual, floatsNearlyEqual, ApproxEqualSpec]
      | val x =>
        cases g with
        | nan => simp [valuesNearlyEqual, floatsNearlyEqual, ApproxEqualSpec]
        | val y =>
          simp only [valuesNearlyEqual, floatsNearlyEqual, ApproxEqualSpec,
            decide_eq_true_eq]
          rw [max_eq_left (mul_nonneg ht ((abs_nonneg x).trans (le_max_left _ _)))]

/-- The comparator rejects exactly when the specification notion fails, at
the default tolerance. -/
theorem valuesNearlyEqual_eq_false_iff (a e : PyVal) :
    valuesNearlyEqual a e RelTolDefault = false ↔
      ¬ ApproxEqualSpec a e RelTolDefault := by
  rw [← valuesNearlyEqual_iff_spec a e RelTolDefault (by norm_num [RelTolDefault])]
  simp

/-- A key is present in a dict exactly when lookup succeeds. -/
theorem containsKey_lookup (m : List (String × α)) (k : String) :
    containsKey m k = true ↔ ∃ v, List.lookup k m = some v := by
  induction m with
  | nil => simp [containsKey]
  | cons x xs ih =>
    obtain ⟨a, b⟩ := x
    by_cases hx : a = k
    · subst hx
      simp [containsKey, List.lookup]
    · have hk : (k == a) = false := by simp [Ne.symm hx]
      unfold containsKey at ih ⊢
      rw [List.any_cons]
      simp only [List.lookup, hk]
      simpa [hx] using ih

/-- The per-column validation loop accepts exactly when every recomputed
summary matches its recorded one (all recorded summaries being present). -/
theorem validateColumnSummaries_ok_iff (ref : DataFrameReference)
    (cols : List (String × ColumnSummary))
    (hpres : ∀ p ∈ cols, containsKey ref.column_summaries p.1 = true) :
    validateColumnSummaries ref cols = .ok () ↔
      ∀ p ∈ cols, ∀ expSummary,
        List.lookup p.1 ref.column_summaries = some expSummary →
        compareColumnSummaries (fromSeriesModel p.2 none) expSummary RelTolDefault = [] := by
  induction cols with
  | nil => simp [validateColumnSummaries]
  | cons hd tl ih =>
    obtain ⟨cn, st⟩ := hd
    obtain ⟨v, hv⟩ := (containsKey_lookup _ _).mp (hpres (cn, st) (by simp))
    have ihtl := ih (fun p hp => hpres p (List.mem_cons_of_mem _ hp))
    cases hcmp : compareColumnSummaries (fromSeriesModel st none) v RelTolDefault with
    | nil =>
      have heq : validateColumnSummaries ref ((cn, st) :: tl) = validateColumnSummaries ref tl := by
        simp only [validateColumnSummaries, hv, hcmp]
      rw [heq, ihtl]
      constructor
      · intro h p hp
        rcases List.mem_cons.mp hp with rfl | hp2
        · intro expSummary hexp
          rw [hv] at hexp
          rw [← Option.some.inj hexp]
          exact hcmp
        · exact h p hp2
      · intro h p hp
        exact h p (List.mem_cons_of_mem _ hp)
    | cons m ms =>
      have heq : validateColumnSummaries ref ((cn, st) :: tl) =
          .error (.statsMismatch ref.name cn (m :: ms)) := by
        simp only [validateColumnSummaries, hv, hcmp]
      rw [heq]
      constructor
      · intro h
        exact absurd h (by simp)
      · intro h
        exfalso
        have hx := h (cn, st) (by simp) v hv
        rw [hcmp] at hx
        simp at hx

/-- When the per-column loop raises a statistics mismatch, the error names
the table, a column of the dataframe, and the nonempty mismatch map of that
column. -/
theorem validateColumnSummaries_statsMismatch (ref : DataFrameReference)
    (cols : List (String × ColumnSummary)) (n c : String)
    (m : List (String × FieldVal × FieldVal))
    (h : validateColumnSummaries ref cols = .error (.statsMismatch n c m)) :
    n = ref.name ∧ ∃ stored expSummary, (c, stored) ∈ cols ∧
      List.lookup c ref.column_summaries = some expSummary ∧
      m = compareColumnSummaries (fromSeriesModel stored none) expSummary RelTolDefault ∧
      m ≠ [] := by
  induction cols with
  | nil => exact absurd h (by simp [validateColumnSummaries])
  | cons hd tl ih =>
    obtain ⟨cn, st⟩ := hd
    cases hv : List.lookup cn ref.column_summaries with
    | none =>
      have heq : validateColumnSummaries ref ((cn, st) :: tl) = .error (.keyError cn) := by
        simp only [validateColumnSummaries, hv]
      rw [heq] at h
      exact absurd h (by simp)
    | some v =>
      cases hcmp : compareColumnSummaries (fromSeriesModel st none) v RelTolDefault with
      | nil =>
        have heq : validateColumnSummaries ref ((cn, st) :: tl) =
            validateColumnSummaries ref tl := by
          simp only [validateColumnSummaries, hv, hcmp]
        rw [heq] at h
        obtain ⟨hn, stored, expSummary, hmem, hrest⟩ := ih h
        exact ⟨hn, stored, expSummary, List.mem_cons_of_mem _ hmem, hrest⟩
      | cons a as =>
        have heq : validateColumnSummaries ref ((cn, st) :: tl) =
            .error (.statsMismatch ref.name cn (a :: as)) := by
          simp only [validateColumnSummaries, hv, hcmp]
        rw [heq] at h
        have h2 := h
        simp only [Except.error.injEq, Err.statsMismatch.injEq] at h2
        obtain ⟨hn, hc, hm⟩ := h2
        subst hn
        subst hc
        refine ⟨rfl, st, v, by simp, hv, ?_, ?_⟩
        · rw [← hm, hcmp]
        · rw [← hm]
          simp

/-- Claim C4: the comparison of an actual against a recorded summary
reports the exact fields `dtype`, `count`, `null_count`, `unique_count`
exactly when not identical, the approximate fields exactly when not equal
within relative tolerance `1e-9` in the NaN/None/type-aware sense, carries
the `(actual, expected)` pair for each mismatching field, and a mismatch
makes validation raise naming the table, the column and the mismatch map. -/
theorem claim_C4_summary_comparison (actual expected : ColumnSummary) (x y : FieldVal)
    (df : DataFrame) (reference : DataFrameReference) :
    ((("dtype", x, y) ∈ compareColumnSummaries actual expected RelTolDefault) ↔
        FieldVal.str actual.dtype ≠ .str expected.dtype ∧
          x = .str actual.dtype ∧ y = .str expected.dtype)
    ∧ ((("count", x, y) ∈ compareColumnSummaries actual expected RelTolDefault) ↔
        FieldVal.int actual.count ≠ .int expected.count ∧
          x = .int actual.count ∧ y = .int expected.count)
    ∧ ((("null_count", x, y) ∈ compareColumnSummaries actual expected RelTolDefault) ↔
        FieldVal.int actual.null_count ≠ .int expected.null_count ∧
          x = .int actual.null_count ∧ y = .int expected.null_count)
    ∧ ((("unique_count", x, y) ∈ compareColumnSummaries actual expected RelTolDefault) ↔
        FieldVal.int actual.unique_count ≠ .int expected.unique_count ∧
          x = .int actual.unique_count ∧ y = .int expected.unique_count)
    ∧ ((("min", x, y) ∈ compareColumnSummaries actual expected RelTolDefault) ↔
        ¬ ApproxEqualSpec actual.min expected.min RelTolDefault ∧
          x = .pv actual.min ∧ y = .pv expected.min)
    ∧ ((("max", x, y) ∈ compareColumnSummaries actual expected RelTolDefault) ↔
        ¬ ApproxEqualSpec actual.max expected.max RelTolDefault ∧
          x = .pv actual.max ∧ y = .pv expected.max)
    ∧ ((("mean", x, y) ∈ compareColumnSummaries actual expected RelTolDefault) ↔
        ¬ ApproxEqualSpec actual.mean expected.mean RelTolDefault ∧
          x = .pv actual.mean ∧ y = .pv expected.mean)
    ∧ ((("std", x, y) ∈ compareColumnSummaries actual expected RelTolDefault) ↔
        ¬ ApproxEqualSpec actual.std expected.std RelTolDefault ∧
          x = .pv actual.std ∧ y = .pv expected.std)
    ∧ ((("p25", x, y) ∈ compareColumnSummaries actual expected RelTolDefault) ↔
        ¬ ApproxEqualSpec actual.p25 expected.p25 RelTolDefault ∧
          x = .pv actual.p25 ∧ y = .pv expected.p25)
    ∧ ((("p50", x, y) ∈ compareColumnSummaries actual expected RelTolDefault) ↔
        ¬ ApproxEqualSpec actual.p50 expected.p50 RelTolDefault ∧
          x = .pv actual.p50 ∧ y = .pv expected.p50)
    ∧ ((("p75", x, y) ∈ compareColumnSummaries actual expected RelTolDefault) ↔
        ¬ ApproxEqualSpec actual.p75 expected.p75 RelTolDefault ∧
          x = .pv actual.p75 ∧ y = .pv expected.p75)
    ∧ (((df.height : Int), (df.cols.length : Int)) =
          (reference.num_rows, reference.num_columns) →
        df.columns = reference.column_names →
        (∀ p ∈ df.cols, containsKey reference.column_summaries p.1 = true) →
        (validateDataFrameMatchesReference df reference = .ok () ↔
          ∀ p ∈ df.cols, ∀ expSummary,
            List.lookup p.1 reference.column_summaries = some expSummary →
            compareColumnSummaries (fromSeriesModel p.2 none) expSummary RelTolDefault = []))
    ∧ (∀ n c m, validateDataFrameMatchesReference df reference =
          .error (.statsMismatch n c m) →
        n = reference.name ∧ ∃ stored expSummary, (c, stored) ∈ df.cols ∧
          List.lookup c reference.column_summaries = some expSummary ∧
          m = compareColumnSummaries (fromSeriesModel stored none) expSummary RelTolDefault ∧
          m ≠ []) := by
  refine ⟨?_, ?_, ?_, ?_, ?_, ?_, ?_, ?_, ?_, ?_, ?_, ?_, ?_⟩
  case _ => simp [compareColumnSummaries, List.mem_append, mem_exactEntry, mem_approxEntry]
  case _ => simp [compareColumnSummaries, List.mem_append, mem_exactEntry, mem_approxEntry]
  case _ => simp [compareColumnSummaries, List.mem_append, mem_exactEntry, mem_approxEntry]
  case _ => simp [compareColumnSummaries, List.mem_append, mem_exactEntry, mem_approxEntry]
  case _ =>
    simp [compareColumnSummaries, List.mem_append, mem_exactEntry, mem_approxEntry,
      valuesNearlyEqual_eq_false_iff]
  case _ =>
    simp [compareColumnSummaries, List.mem_append, mem_exactEntry, mem_approxEntry,
      valuesNearlyEqual_eq_false_iff]
  case _ =>
    simp [compareColumnSummaries, List.mem_append, mem_exactEntry, mem_approxEntry,
      valuesNearlyEqual_eq_false_iff]
  case _ =>
    simp [compareColumnSummaries, List.mem_append, mem_exactEntry, mem_approxEntry,
      valuesNearlyEqual_eq_false_iff]
  case _ =>
    simp [compareColumnSummaries, List.mem_append, mem_exactEntry, mem_approxEntry,
      valuesNearlyEqual_eq_false_iff]
  case _ =>
    simp [compareColumnSummaries, List.mem_append, mem_exactEntry, mem_approxEntry,
      valuesNearlyEqual_eq_false_iff]
  case _ =>
    simp [compareColumnSummaries, List.mem_append, mem_exactEntry, mem_approxEntry,
      valuesNearlyEqual_eq_false_iff]
  case _ =>
    intro h1 h2 hpres
    unfold validateDataFrameMatchesReference
    rw [if_neg (by simp [h1])]
    rw [if_neg (by simp [h2])]
    exact validateColumnSummaries_ok_iff reference df.cols hpres
  case _ =>
    intro n c m h
    unfold validateDataFrameMatchesReference at h
    split at h
    · exact absurd h (by simp)
    · split at h
      · exact absurd h (by simp)
      · exact validateColumnSummaries_statsMismatch reference df.cols n c m h

/-! ### Theorems: parse_sql error behaviour (C8) -/

/-- Claim C8: `parse_sql` raises `SQLSyntaxError` exactly when the query is
empty/whitespace-only or the parser fails, carrying the structured
sub-errors (description, line, col, start context, highlight, end
context); and with a blacklist supplied, a parsed top-level command type in
the blacklist (set operations counting as SELECT) raises
`SQLBlacklistedCommandError` carrying the command type and the normalized
blacklist. -/
theorem claim_C8_parse_errors (parseFn : ParseFn) (query : String)
    (blacklist : Option (List String)) :
    ((∃ errs, parseSql parseFn query blacklist = .error (.syntaxError errs)) ↔
        (isBlank query = true ∨ ∃ es, parseFn query = .error es))
    ∧ (isBlank query = true → parseSql parseFn query blacklist = .error (.syntaxError []))
    ∧ (∀ es, isBlank query = false → parseFn query = .error es →
        parseSql parseFn query blacklist = .error (.syntaxError (es.map toParseErrorDict)))
    ∧ (∀ e bl ct, isBlank query = false → parseFn query = .ok e → blacklist = some bl →
        commandTypeOf e = some ct →
        (bl.map strToUpper).contains (strToUpper ct) = true →
        parseSql parseFn query blacklist =
          .error (.blacklistedCommand ct (bl.map strToUpper)))
    ∧ commandTypeOf .unionE = some "SELECT"
    ∧ commandTypeOf .intersectE = some "SELECT"
    ∧ commandTypeOf .exceptE = some "SELECT" := by
  refine ⟨?_, ?_, ?_, ?_, rfl, rfl, rfl⟩
  · constructor
    · rintro ⟨errs, h⟩
      unfold parseSql at h
      split at h
      · exact Or.inl (by assumption)
      · split at h
        · next es heq => exact Or.inr ⟨es, heq⟩
        · split at h
          · exact absurd h (by simp)
          · split at h
            · exact absurd h (by simp)
            · split at h
              · exact absurd h (by simp)
              · split at h
                · exact absurd h (by simp)
                · exact absurd h (by simp)
    · rintro (hb | ⟨es, hp⟩)
      · refine ⟨[], ?_⟩
        unfold parseSql
        rw [if_pos hb]
      · by_cases hb : isBlank query
        · refine ⟨[], ?_⟩
          unfold parseSql
          rw [if_pos hb]
        · refine ⟨es.map toParseErrorDict, ?_⟩
          unfold parseSql
          rw [if_neg hb, hp]
  · intro hb
    unfold parseSql
    rw [if_pos hb]
  · intro es hb hp
    unfold parseSql
    rw [if_neg (by simp [hb]), hp]
  · intro e bl ct hb hp hbl hct hin
    subst hbl
    have hblne : bl ≠ [] := by
      intro h0
      subst h0
      simp at hin
    unfold parseSql
    rw [if_neg (by simp [hb]), hp]
    show (if bl = [] then Except.ok e else _) = _
    rw [if_neg hblne, hct]
    show (if (bl.map strToUpper).contains (strToUpper ct) = true then _ else _) = _
    rw [if_pos hin]

/-! ### Theorems: dependency ordering (C2) -/

/-- The edge relation of a dependency graph given as an adjacency list:
`a` depends on `b` when `b` occurs among the recorded parents of `a`. -/
def GEdge (g : List (String × List String)) (a b : String) : Prop :=
  ∃ ps, (a, ps) ∈ g ∧ b ∈ ps

/-- In a finite set in which every element has a successor inside the set,
some element lies on a cycle through the set (pigeonhole on iterated
successors). -/
theorem exists_cycle_of_next (R : List String) (E : String → String → Prop)
    (hne : R ≠ []) (h : ∀ x ∈ R, ∃ y ∈ R, E x y) :
    ∃ x ∈ R, Relation.TransGen (fun a b => E a b ∧ a ∈ R ∧ b ∈ R) x x := by
  classical
  have hstep : ∀ x : {a // a ∈ R}, ∃ y : {a // a ∈ R}, E x.1 y.1 := by
    rintro ⟨x, hx⟩
    obtain ⟨y, hy, he⟩ := h x hx
    exact ⟨⟨y, hy⟩, he⟩
  set f : {a // a ∈ R} → {a // a ∈ R} := fun x => Classical.choose (hstep x) with hf_def
  have hf : ∀ x, E x.1 (f x).1 := fun x => Classical.choose_spec (hstep x)
  obtain ⟨x0, hx0⟩ := List.exists_mem_of_ne_nil R hne
  set seq : ℕ → {a // a ∈ R} := fun n => f^[n] ⟨x0, hx0⟩ with hseq_def
  have hchain : ∀ a b : ℕ, a < b →
      Relation.TransGen (fun u v => E u v ∧ u ∈ R ∧ v ∈ R) (seq a).1 (seq b).1 := by
    intro a b hab
    induction b with
    | zero => omega
    | succ b ihb =>
      have hstep1 : (fun u v => E u v ∧ u ∈ R ∧ v ∈ R) (seq b).1 (seq (b + 1)).1 := by
        have : seq (b + 1) = f (seq b) := by
          simp only [hseq_def, Function.iterate_succ_apply']
        rw [this]
        exact ⟨hf (seq b), (seq b).2, (f (seq b)).2⟩
      rcases Nat.lt_succ_iff_lt_or_eq.mp hab with hlt | heq
      · exact (ihb hlt).tail hstep1
      · subst heq
        exact Relation.TransGen.single hstep1
  have hmaps : ∀ n ∈ Finset.range (R.length + 1), (seq n).1 ∈ R.toFinset := by
    intro n _
    exact List.mem_toFinset.mpr (seq n).2
  have hcard : R.toFinset.card < (Finset.range (R.length + 1)).card := by
    rw [Finset.card_range]
    exact Nat.lt_succ_of_le R.toFinset_card_le
  obtain ⟨i, _, j, _, hij, hequ⟩ :=
    Finset.exists_ne_map_eq_of_card_lt_of_maps_to hcard hmaps
  rcases lt_or_gt_of_ne hij with hlt | hgt
  · refine ⟨(seq i).1, (seq i).2, ?_⟩
    have := hchain i j hlt
    rwa [← hequ] at this
  · refine ⟨(seq j).1, (seq j).2, ?_⟩
    have := hchain j i hgt
    rwa [hequ] at this

/-- In a duplicate-free list, the pair sublist `[a, b]` forces `a` to sit
strictly earlier than `b`. -/
theorem before_index {l : List String} {a b : String} (hn : l.Nodup)
    (h : [a, b].Sublist l) : l.indexOf a < l.indexOf b := by
  induction l with
  | nil => exact absurd (List.Sublist.length_le h) (by simp)
  | cons x t ih =>
    cases h with
    | cons _ h2 =>
      have ha : a ∈ t := h2.subset (by simp)
      have hb : b ∈ t := h2.subset (by simp)
      have hxa : a ≠ x := fun hh => (List.nodup_cons.mp hn).1 (hh ▸ ha)
      have hxb : b ≠ x := fun hh => (List.nodup_cons.mp hn).1 (hh ▸ hb)
      rw [List.indexOf_cons_ne _ (Ne.symm hxa), List.indexOf_cons_ne _ (Ne.symm hxb)]
      exact Nat.succ_lt_succ (ih (List.nodup_cons.mp hn).2 h2)
    | cons₂ h2 =>
      rename_i h2
      have hb : b ∈ t := List.Sublist.subset h2 (by simp)
      have hba : b ≠ a := fun hh => (List.nodup_cons.mp hn).1 (hh ▸ hb)
      rw [List.indexOf_cons_self, List.indexOf_cons_ne _ (Ne.symm hba)]
      exact Nat.succ_pos _

/-- The key invariant chain of the Kahn rounds: on success the output
covers every node exactly once and places every recorded parent strictly
before its child (as the pair sublist `[parent, child]`). -/
theorem kahnAux_ok_spec (g : List (String × List String))
    (hG0 : ∀ p ∈ g, ∀ q ∈ p.2, q ∈ g.map Prod.fst)
    (hGN : (g.map Prod.fst).Nodup) :
    ∀ (fuel : Nat) (remaining : List (String × List String)) (acc l : List String),
      remaining.length ≤ fuel →
      (∀ p ∈ remaining, p ∈ g) →
      (remaining.map Prod.fst).Nodup →
      (∀ p ∈ g, p.1 ∈ acc ∨ p.1 ∈ remaining.map Prod.fst) →
      (∀ a ∈ acc, a ∈ g.map Prod.fst) →
      (∀ a ∈ acc, a ∉ remaining.map Prod.fst) →
      acc.Nodup →
      (∀ p ∈ g, p.1 ∈ acc → ∀ q ∈ p.2, [q, p.1].Sublist acc) →
      kahnAux fuel remaining acc = .ok l →
      (l.Nodup ∧ (∀ p ∈ g, p.1 ∈ l) ∧ (∀ a ∈ l, a ∈ g.map Prod.fst) ∧
        (∀ p ∈ g, ∀ q ∈ p.2, [q, p.1].Sublist l)) := by
  intro fuel
  induction fuel with
  | zero =>
    intro remaining acc l hlen hsub hknd hcov hacc hdis hand hord hok
    have hrem : remaining = [] := List.length_eq_zero.mp (Nat.le_zero.mp hlen)
    subst hrem
    unfold kahnAux at hok
    simp only [List.isEmpty_nil, if_true, Except.ok.injEq] at hok
    subst hok
    refine ⟨hand, ?_, hacc, ?_⟩
    · intro p hp
      rcases hcov p hp with h | h
      · exact h
      · simp at h
    · intro p hp q hq
      have hpl : p.1 ∈ acc := by
        rcases hcov p hp with h | h
        · exact h
        · simp at h
      exact hord p hp hpl q hq
  | succ fuel ih =>
    intro remaining acc l hlen hsub hknd hcov hacc hdis hand hord hok
    by_cases hemp : remaining.isEmpty
    · have hrem : remaining = [] := List.isEmpty_iff.mp hemp
      subst hrem
      unfold kahnAux at hok
      simp only [List.isEmpty_nil, if_true, Except.ok.injEq] at hok
      subst hok
      refine ⟨hand, ?_, hacc, ?_⟩
      · intro p hp
        rcases hcov p hp with h | h
        · exact h
        · simp at h
      · intro p hp q hq
        have hpl : p.1 ∈ acc := by
          rcases hcov p hp with h | h
          · exact h
          · simp at h
        exact hord p hp hpl q hq
    · unfold kahnAux at hok
      rw [if_neg hemp] at hok
      by_cases hready : (kahnStepReady remaining).isEmpty
      · rw [if_pos hready] at hok
        exact absurd hok (by simp)
      · rw [if_neg hready] at hok
        -- shorthands
        have hready_sub : ∀ p ∈ kahnStepReady remaining, p ∈ remaining :=
          fun p hp => List.mem_of_mem_filter hp
        have hrest_sub : ∀ p ∈ kahnStepRest remaining, p ∈ remaining :=
          fun p hp => List.mem_of_mem_filter hp
        have hkeys_rest : ((kahnStepRest remaining).map Prod.fst).Sublist
            (remaining.map Prod.fst) := (List.filter_sublist _).map _
        have hkeys_ready : ((kahnStepReady remaining).map Prod.fst).Sublist
            (remaining.map Prod.fst) := (List.filter_sublist _).map _
        -- length decreases
        have hpart : ((kahnStepReady remaining).length + (kahnStepRest remaining).length)
            = remaining.length := by
          have := (List.filter_append_perm
            (kahnReady (remaining.map (fun p => p.1))) remaining).length_eq
          simpa [kahnStepReady, kahnStepRest] using this
        have hrne : (kahnStepReady remaining).length ≠ 0 := by
          intro h0
          exact hready (List.isEmpty_iff.mpr (List.length_eq_zero.mp h0))
        have hlen2 : (kahnStepRest remaining).length ≤ fuel := by omega
        -- entries of rest and ready are entries of g
        have hsub2 : ∀ p ∈ kahnStepRest remaining, p ∈ g :=
          fun p hp => hsub p (hrest_sub p hp)
        have hknd2 : ((kahnStepRest remaining).map Prod.fst).Nodup :=
          hknd.sublist hkeys_rest
        -- ready entries, when unique keys hold, are determined by their key
        have hentry_unique : ∀ e ∈ remaining, ∀ e2 ∈ remaining, e.1 = e2.1 → e = e2 :=
          fun e he e2 he2 hk => List.inj_on_of_nodup_map hknd he he2 hk
        -- coverage
        have hcov2 : ∀ p ∈ g, p.1 ∈ acc ++ (kahnStepReady remaining).map (fun p => p.1) ∨
            p.1 ∈ (kahnStepRest remaining).map Prod.fst := by
          intro p hp
          rcases hcov p hp with h | h
          · exact Or.inl (List.mem_append_left _ h)
          · obtain ⟨e, he, hek⟩ := List.mem_map.mp h
            by_cases hr : kahnReady (remaining.map (fun p => p.1)) e
            · refine Or.inl (List.mem_append_right _ ?_)
              exact List.mem_map.mpr ⟨e, List.mem_filter.mpr ⟨he, hr⟩, hek⟩
            · refine Or.inr ?_
              refine List.mem_map.mpr ⟨e, List.mem_filter.mpr ⟨he, ?_⟩, hek⟩
              simp [hr]
        -- new acc is inside the keys of g
        have hacc2 : ∀ a ∈ acc ++ (kahnStepReady remaining).map (fun p => p.1),
            a ∈ g.map Prod.fst := by
          intro a ha
          rcases List.mem_append.mp ha with h | h
          · exact hacc a h
          · obtain ⟨e, he, hek⟩ := List.mem_map.mp h
            exact hek ▸ List.mem_map.mpr ⟨e, hsub e (hready_sub e he), rfl⟩
        -- new acc avoids the new remaining keys
        have hdis2 : ∀ a ∈ acc ++ (kahnStepReady remaining).map (fun p => p.1),
            a ∉ (kahnStepRest remaining).map Prod.fst := by
          intro a ha hmem
          rcases List.mem_append.mp ha with h | h
          · exact hdis a h (hkeys_rest.subset hmem)
          · obtain ⟨e, he, hek⟩ := List.mem_map.mp h
            obtain ⟨e2, he2, hek2⟩ := List.mem_map.mp hmem
            have : e = e2 := hentry_unique e (hready_sub e he) e2 (hrest_sub e2 he2)
              (by rw [hek, hek2])
            subst this
            have h1 : kahnReady (remaining.map (fun p => p.1)) e = true :=
              (List.mem_filter.mp he).2
            have h2 : (!kahnReady (remaining.map (fun p => p.1)) e) = true :=
              (List.mem_filter.mp he2).2
            rw [h1] at h2
            exact Bool.false_ne_true h2
        -- new acc has no duplicates
        have hand2 : (acc ++ (kahnStepReady remaining).map (fun p => p.1)).Nodup := by
          refine List.Nodup.append hand (hknd.sublist hkeys_ready) ?_
          intro a ha hmem
          exact hdis a ha (hkeys_ready.subset hmem)
        -- ordering invariant extends to the freshly emitted nodes
        have hord2 : ∀ p ∈ g, p.1 ∈ acc ++ (kahnStepReady remaining).map (fun p => p.1) →
            ∀ q ∈ p.2, [q, p.1].Sublist (acc ++ (kahnStepReady remaining).map (fun p => p.1)) := by
          intro p hp hpa q hq
          rcases List.mem_append.mp hpa with h | h
          · exact (hord p hp h q hq).trans (List.sublist_append_left _ _)
          · obtain ⟨e, he, hek⟩ := List.mem_map.mp h
            have he_rem : e ∈ remaining := hready_sub e he
            have he_g : e ∈ g := hsub e he_rem
            have hpe : e = p := List.inj_on_of_nodup_map hGN he_g hp hek
            subst hpe
            have hready_e : kahnReady (remaining.map (fun p => p.1)) e = true :=
              (List.mem_filter.mp he).2
            have hqnk : q ∉ remaining.map (fun p => p.1) := by
              intro hqk
              have hall := List.all_eq_true.mp hready_e q hq
              have hc : (remaining.map (fun p => p.1)).contains q = true :=
                List.elem_iff.mpr hqk
              rw [hc] at hall
              simp at hall
            have hqacc : q ∈ acc := by
              obtain ⟨pe, hpe_g, hpe_k⟩ := List.mem_map.mp (hG0 e he_g q hq)
              rcases hcov pe hpe_g with h2 | h2
              · exact hpe_k ▸ h2
              · exact absurd (hpe_k ▸ h2 :
                  (q : String) ∈ remaining.map Prod.fst) hqnk
            show ([q] ++ [e.1]).Sublist (acc ++ (kahnStepReady remaining).map (fun p => p.1))
            exact List.Sublist.append (List.singleton_sublist.mpr hqacc)
              (List.singleton_sublist.mpr (List.mem_map.mpr ⟨e, he, rfl⟩))
        exact ih (kahnStepRest remaining)
          (acc ++ (kahnStepReady remaining).map (fun p => p.1)) l
          hlen2 hsub2 hknd2 hcov2 hacc2 hdis2 hand2 hord2 hok

/-- When the Kahn rounds get stuck, the reported ids contain a genuine
dependency cycle: every stuck entry still waits on a stuck parent, and a
finite such set must close a cycle. -/
theorem kahnAux_error_spec (g : List (String × List String)) :
    ∀ (fuel : Nat) (remaining : List (String × List String)) (acc R : List String),
      remaining.length ≤ fuel →
      (∀ p ∈ remaining, p ∈ g) →
      kahnAux fuel remaining acc = .error R →
      (R ≠ [] ∧ ∃ x ∈ R, Relation.TransGen
        (fun a b => GEdge g a b ∧ a ∈ R ∧ b ∈ R) x x) := by
  intro fuel
  induction fuel with
  | zero =>
    intro remaining acc R hlen hsub herr
    have hrem : remaining = [] := List.length_eq_zero.mp (Nat.le_zero.mp hlen)
    subst hrem
    unfold kahnAux at herr
    exact absurd herr (by simp)
  | succ fuel ih =>
    intro remaining acc R hlen hsub herr
    by_cases hemp : remaining.isEmpty
    · unfold kahnAux at herr
      rw [if_pos hemp] at herr
      exact absurd herr (by simp)
    · unfold kahnAux at herr
      rw [if_neg hemp] at herr
      by_cases hready : (kahnStepReady remaining).isEmpty
      · rw [if_pos hready] at herr
        have hR : R = remaining.map (fun p => p.1) := by
          have := herr
          simp only [Except.error.injEq] at this
          exact this.symm
        subst hR
        have hrne : remaining ≠ [] := fun h0 => hemp (by simp [h0])
        constructor
        · intro h0
          exact hrne (List.map_eq_nil_iff.mp h0)
        · apply exists_cycle_of_next
          · intro h0
            exact hrne (List.map_eq_nil_iff.mp h0)
          · intro x hx
            obtain ⟨e, he, hek⟩ := List.mem_map.mp hx
            have hnr : kahnReady (remaining.map (fun p => p.1)) e = false := by
              by_contra hcon
              have : e ∈ kahnStepReady remaining :=
                List.mem_filter.mpr ⟨he, Bool.of_not_eq_false hcon⟩
              rw [List.isEmpty_iff.mp hready] at this
              simp at this
            unfold kahnReady at hnr
            have hnall : ¬ (∀ q ∈ e.2,
                (!(remaining.map (fun p => p.1)).contains q) = true) := by
              intro hall
              rw [← List.all_eq_true] at hall
              rw [hall] at hnr
              simp at hnr
            push_neg at hnall
            obtain ⟨q, hq, hnq⟩ := hnall
            have hqmem : q ∈ remaining.map (fun p => p.1) := by
              by_contra hcon
              apply hnq
              have hcf : (remaining.map (fun p => p.1)).contains q = false := by
                by_contra h2
                exact hcon (List.elem_iff.mp (Bool.of_not_eq_false h2))
              rw [hcf]
              rfl
            refine ⟨q, hqmem, ⟨e.2, ?_, hq⟩⟩
            rw [← hek]
            exact (Prod.mk.eta (p := e)) ▸ hsub e he
      · rw [if_neg hready] at herr
        have hpart : ((kahnStepReady remaining).length + (kahnStepRest remaining).length)
            = remaining.length := by
          have := (List.filter_append_perm
            (kahnReady (remaining.map (fun p => p.1))) remaining).length_eq
          simpa [kahnStepReady, kahnStepRest] using this
        have hrne : (kahnStepReady remaining).length ≠ 0 := by
          intro h0
          exact hready (List.isEmpty_iff.mpr (List.length_eq_zero.mp h0))
        have hlen2 : (kahnStepRest remaining).length ≤ fuel := by omega
        exact ih (kahnStepRest remaining)
          (acc ++ (kahnStepReady remaining).map (fun p => p.1)) R hlen2
          (fun p hp => hsub p (List.mem_of_mem_filter hp)) herr

/-- `containsKey` is key membership. -/
theorem containsKey_iff_mem_keys (m : List (String × α)) (k : String) :
    containsKey m k = true ↔ k ∈ m.map Prod.fst := by
  unfold containsKey
  rw [List.any_eq_true]
  constructor
  · rintro ⟨p, hp, he⟩
    exact List.mem_map.mpr ⟨p, hp, of_decide_eq_true he⟩
  · intro h
    obtain ⟨p, hp, he⟩ := List.mem_map.mp h
    exact ⟨p, hp, decide_eq_true he⟩

/-- Building a dict from pairs with duplicate-free keys keeps the list. -/
theorem dictOfList_eq_self_aux (ps acc : List (String × α))
    (h : ((acc ++ ps).map Prod.fst).Nodup) :
    ps.foldl (fun m p => dictInsert m p.1 p.2) acc = acc ++ ps := by
  induction ps generalizing acc with
  | nil => simp
  | cons p ps ih =>
    have hnotin : containsKey acc p.1 = false := by
      rw [Bool.eq_false_iff]
      intro hc
      have hmem := (containsKey_iff_mem_keys acc p.1).mp hc
      rw [List.map_append] at h
      exact List.disjoint_of_nodup_append h hmem (by simp)
    rw [List.foldl_cons]
    have hstep : dictInsert acc p.1 p.2 = acc ++ [p] := by
      unfold dictInsert
      rw [hnotin]
      simp
    rw [hstep]
    rw [ih (acc ++ [p]) (by simpa using h)]
    simp

/-- Python dict comprehension over pairs with duplicate-free keys is the
identity. -/
theorem dictOfList_eq_self (ps : List (String × α))
    (h : (ps.map Prod.fst).Nodup) : dictOfList ps = ps := by
  unfold dictOfList
  have := dictOfList_eq_self_aux ps [] (by simpa using h)
  simpa using this

/-- Lookup of a reference id in the id-keyed reference dict, when ids are
unique, yields that reference. -/
theorem lookup_refs_self (refs : List DataFrameReference)
    (hnd : (refs.map (fun r => r.id)).Nodup) :
    ∀ r ∈ refs, List.lookup r.id (refs.map (fun s => (s.id, s))) = some r := by
  induction refs with
  | nil => simp
  | cons a rest ih =>
    intro r hr
    rcases List.mem_cons.mp hr with rfl | hr2
    · simp [List.lookup]
    · have hna : r.id ≠ a.id := by
        intro h0
        have : a.id ∈ rest.map (fun r => r.id) := h0 ▸ List.mem_map.mpr ⟨r, hr2, rfl⟩
        exact (List.nodup_cons.mp (by simpa using hnd)).1 this
      have : (r.id == a.id) = false := by simp [hna]
      simp only [List.map_cons, List.lookup, this]
      exact ih (by simpa using (List.nodup_cons.mp (by simpa using hnd)).2) r hr2

/-- Anything the id-keyed reference dict returns is one of the references,
keyed by its own id. -/
theorem lookup_refs_mem (refs : List DataFrameReference) (k : String)
    (r : DataFrameReference)
    (h : List.lookup k (refs.map (fun s => (s.id, s))) = some r) :
    r ∈ refs ∧ r.id = k := by
  induction refs with
  | nil => simp at h
  | cons a rest ih =>
    by_cases hk : k == a.id
    · simp only [List.map_cons, List.lookup, hk] at h
      have : a = r := by
        simpa using h
      subst this
      exact ⟨by simp, (eq_of_beq hk).symm⟩
    · simp only [List.map_cons, List.lookup, Bool.of_not_eq_true hk] at h
      obtain ⟨h1, h2⟩ := ih h
      exact ⟨List.mem_cons_of_mem _ h1, h2⟩

/-- Mapping ids over the filterMap-based reconstruction of the sorted
reference list gives back the sorted ids. -/
theorem sorted_ids_roundtrip (refs : List DataFrameReference)
    (hnd : (refs.map (fun r => r.id)).Nodup) (ids : List String)
    (hids : ∀ i ∈ ids, i ∈ refs.map (fun r => r.id)) :
    ((ids.filterMap (fun i => List.lookup i (refs.map (fun s => (s.id, s))))).map
      (fun r => r.id)) = ids := by
  induction ids with
  | nil => simp
  | cons i rest ih =>
    obtain ⟨r, hr, hrk⟩ := List.mem_map.mp (hids i (by simp))
    have hlk : List.lookup i (refs.map (fun s => (s.id, s))) = some r := by
      rw [← hrk]
      exact lookup_refs_self refs hnd r hr
    rw [List.filterMap_cons, hlk]
    simp only [List.map_cons, hrk]
    rw [ih (fun j hj => hids j (List.mem_cons_of_mem _ hj))]

/-- With duplicate-free ids, the graph `_sort_references_by_dependency_order`
builds is the reference list itself, each entry keeping those parents that
are present in the reference set. -/
theorem buildGraph_eq (refs : List DataFrameReference)
    (hnd : (refs.map (fun r => r.id)).Nodup) :
    buildGraph refs = refs.map (fun r =>
      (r.id, r.parent_ids.filter
        (fun p => containsKey (refs.map (fun s => (s.id, s))) p))) := by
  have hk1 : ((refs.map (fun r => (r.id, r))).map Prod.fst).Nodup := by
    simpa [List.map_map, Function.comp_def] using hnd
  simp only [buildGraph]
  rw [dictOfList_eq_self _ hk1]
  apply dictOfList_eq_self
  simpa [List.map_map, Function.comp_def] using hnd

/-- Claim C2: with duplicate-free ids, (i) when the recorded dependency
graph is acyclic, `_sort_references_by_dependency_order` succeeds and
returns the references in an order in which every parent that is present
in the reference set comes strictly before each reference listing it (so
the replay loop of `_reconstruct_derivatives`, which walks this order,
registers parents first); (ii) when the graph has a cycle, it fails,
reporting a nonempty set of ids containing a genuine cycle (the
`CycleError` turned into `ValueError`); (iii) a derivative reference with
a parent missing from the registered reference map makes
`_reconstruct_dataframe` raise the missing-parents `ValueError` naming
that parent, before any SQL runs. -/
theorem claim_C2_dependency_order (references : List DataFrameReference)
    (hnd : (references.map (fun r => r.id)).Nodup) :
    ((¬ ∃ x, Relation.TransGen (GEdge (buildGraph references)) x x) →
      ∃ sorted, sortReferencesByDependencyOrder references = .ok sorted ∧
        (∀ x, x ∈ sorted ↔ x ∈ references) ∧
        (sorted.map (fun r => r.id)).Nodup ∧
        (∀ r ∈ references, ∀ p ∈ r.parent_ids,
          p ∈ references.map (fun s => s.id) →
          [p, r.id].Sublist (sorted.map (fun s => s.id))))
    ∧ ((∃ x, Relation.TransGen (GEdge (buildGraph references)) x x) →
      ∃ R, sortReferencesByDependencyOrder references = .error R ∧ R ≠ [] ∧
        ∃ x ∈ R, Relation.TransGen
          (fun a b => GEdge (buildGraph references) a b ∧ a ∈ R ∧ b ∈ R) x x)
    ∧ (∀ (engine : SqlEngine) (ref : DataFrameReference) (ctx : DataFrameContext)
        (refsMap : List (String × DataFrameReference)) (p : String),
        ref.parent_ids ≠ [] → p ∈ ref.parent_ids → containsKey refsMap p = false →
        ∃ missing, reconstructDataframe engine ref ctx refsMap =
          .error (.missingParents ref.name missing (refsMap.map Prod.fst)) ∧
          p ∈ missing) := by
  have hbg := buildGraph_eq references hnd
  have hkeys : (buildGraph references).map Prod.fst = references.map (fun r => r.id) := by
    rw [hbg]
    simp [List.map_map, Function.comp_def]
  have hG0 : ∀ p ∈ buildGraph references, ∀ q ∈ p.2,
      q ∈ (buildGraph references).map Prod.fst := by
    intro p hp q hq
    rw [hbg] at hp
    obtain ⟨r, _, hre⟩ := List.mem_map.mp hp
    rw [← hre] at hq
    have := (List.mem_filter.mp hq).2
    rw [hkeys]
    have := (containsKey_iff_mem_keys _ _).mp this
    simpa [List.map_map, Function.comp_def] using this
  have hGN : ((buildGraph references).map Prod.fst).Nodup := by
    rw [hkeys]
    exact hnd
  have hentry : ∀ r ∈ references,
      (r.id, r.parent_ids.filter
        (fun p => containsKey (references.map (fun s => (s.id, s))) p))
        ∈ buildGraph references := by
    intro r hr
    rw [hbg]
    exact List.mem_map.mpr ⟨r, hr, rfl⟩
  refine ⟨?_, ?_, ?_⟩
  · -- acyclic: the sort succeeds with parents first
    intro hacyc
    cases hks : kahnSort (buildGraph references) with
    | error R =>
      obtain ⟨_, x, _, hcyc⟩ := kahnAux_error_spec (buildGraph references)
        (buildGraph references).length (buildGraph references) [] R (le_refl _)
        (fun p hp => hp) hks
      exact absurd ⟨x, hcyc.mono (fun a b hab => hab.1)⟩ hacyc
    | ok sortedIds =>
      obtain ⟨hnodup, hcovl, hsubl, hordl⟩ := kahnAux_ok_spec (buildGraph references)
        hG0 hGN (buildGraph references).length (buildGraph references) [] sortedIds
        (le_refl _) (fun p hp => hp) hGN
        (fun p hp => Or.inr (List.mem_map.mpr ⟨p, hp, rfl⟩))
        (by simp) (by simp) List.nodup_nil (by simp) hks
      have hids : ∀ i ∈ sortedIds, i ∈ references.map (fun r => r.id) := by
        intro i hi
        rw [← hkeys]
        exact hsubl i hi
      have hround := sorted_ids_roundtrip references hnd sortedIds hids
      refine ⟨sortedIds.filterMap
        (fun i => List.lookup i (references.map (fun s => (s.id, s)))), ?_, ?_, ?_, ?_⟩
      · simp only [sortReferencesByDependencyOrder]
        rw [dictOfList_eq_self _ (by simpa [List.map_map, Function.comp_def] using hnd)]
        rw [hks]
      · intro x
        constructor
        · intro hx
          obtain ⟨i, _, hlk⟩ := List.mem_filterMap.mp hx
          exact (lookup_refs_mem references i x hlk).1
        · intro hx
          have hidmem : x.id ∈ sortedIds := by
            have := hcovl _ (hentry x hx)
            exact this
          exact List.mem_filterMap.mpr ⟨x.id, hidmem, lookup_refs_self references hnd x hx⟩
      · rw [hround]
        exact hnodup
      · intro r hr p hp hpids
        rw [hround]
        have hpf : p ∈ r.parent_ids.filter
            (fun p => containsKey (references.map (fun s => (s.id, s))) p) := by
          refine List.mem_filter.mpr ⟨hp, ?_⟩
          rw [containsKey_iff_mem_keys]
          simpa [List.map_map, Function.comp_def] using hpids
        exact hordl _ (hentry r hr) p hpf
  · -- cyclic: the sort fails and the reported ids contain a cycle
    rintro ⟨x, hcyc⟩
    cases hks : kahnSort (buildGraph references) with
    | ok sortedIds =>
      exfalso
      obtain ⟨hnodup, hcovl, hsubl, hordl⟩ := kahnAux_ok_spec (buildGraph references)
        hG0 hGN (buildGraph references).length (buildGraph references) [] sortedIds
        (le_refl _) (fun p hp => hp) hGN
        (fun p hp => Or.inr (List.mem_map.mpr ⟨p, hp, rfl⟩))
        (by simp) (by simp) List.nodup_nil (by simp) hks
      have hdec : ∀ a b, Relation.TransGen (GEdge (buildGraph references)) a b →
          sortedIds.indexOf b < sortedIds.indexOf a := by
        intro a b h
        induction h with
        | single hab =>
          obtain ⟨ps, hpg, hbps⟩ := hab
          exact before_index hnodup (hordl (_, ps) hpg _ hbps)
        | tail _ hbc ih =>
          obtain ⟨ps, hpg, hbps⟩ := hbc
          exact (before_index hnodup (hordl (_, ps) hpg _ hbps)).trans ih
      exact lt_irrefl _ (hdec x x hcyc)
    | error R =>
      obtain ⟨hne, y, hyR, hcyc2⟩ := kahnAux_error_spec (buildGraph references)
        (buildGraph references).length (buildGraph references) [] R (le_refl _)
        (fun p hp => hp) hks
      refine ⟨R, ?_, hne, y, hyR, hcyc2⟩
      simp only [sortReferencesByDependencyOrder]
      rw [hks]
  · -- missing parent: `_reconstruct_dataframe` names it before any SQL
    intro engine ref ctx refsMap p hpne hp hnc
    unfold reconstructDataframe
    rw [if_neg hpne]
    cases hm : ref.parent_ids.filter (fun q => !containsKey refsMap q) with
    | nil =>
      have : p ∈ ref.parent_ids.filter (fun q => !containsKey refsMap q) :=
        List.mem_filter.mpr ⟨hp, by simp [hnc]⟩
      rw [hm] at this
      simp at this
    | cons a as =>
      refine ⟨a :: as, ?_, ?_⟩
      · rfl
      · have : p ∈ ref.parent_ids.filter (fun q => !containsKey refsMap q) :=
          List.mem_filter.mpr ⟨hp, by simp [hnc]⟩
        rw [hm] at this
        exact this

/-- A concrete base reference for the witnesses. -/
def baseRefModel : DataFrameReference :=
  { id := "df_00000001", name := "students", description := "", num_rows := 0,
    num_columns := 0, column_names := [], column_summaries := [],
    parent_ids := [], source_query := none }

/-- A concrete derivative reference whose parent is `baseRefModel`. -/
def derivRefModel : DataFrameReference :=
  { id := "df_00000002", name := "high_scorers", description := "", num_rows := 0,
    num_columns := 0, column_names := [], column_summaries := [],
    parent_ids := ["df_00000001"], source_query := some "SELECT 1" }

/-- An engine that always fails, for witnesses that never reach SQL. -/
def engineFailModel : SqlEngine := fun _ _ => .error "unavailable"

/-- Claim C2 witness: with no references registered, reconstructing the
concrete derivative raises the missing-parents error naming its parent. -/
theorem claim_C2_witness :
    ∃ missing, reconstructDataframe engineFailModel derivRefModel
        DataFrameContext.empty [] =
      .error (.missingParents derivRefModel.name missing []) ∧
      "df_00000001" ∈ missing :=
  (claim_C2_dependency_order [baseRefModel, derivRefModel] (by decide)).2.2
    engineFailModel derivRefModel DataFrameContext.empty [] "df_00000001"
    (by decide) (by decide) (by decide)

/-! ### Theorems: atomic base phase of restore (C3) -/

/-- When the validation pass over all supplied bases reports nothing, every
supplied base was validated against its reference successfully. -/
theorem validateAllBases_none (base_refs : List (String × DataFrameReference)) :
    ∀ L, validateAllBases base_refs L = none →
      ∀ p ∈ L, ∃ ref, List.lookup p.1 base_refs = some ref ∧
        validateDataFrameMatchesReference p.2 ref = .ok () := by
  intro L
  induction L with
  | nil => simp
  | cons hd tl ih =>
    obtain ⟨i, df⟩ := hd
    intro h p hp
    cases hlk : List.lookup i base_refs with
    | none =>
      rw [show validateAllBases base_refs ((i, df) :: tl) = some (.keyError i) by
        simp only [validateAllBases, hlk]] at h
      exact absurd h (by simp)
    | some ref =>
      cases hval : validateDataFrameMatchesReference df ref with
      | error e =>
        rw [show validateAllBases base_refs ((i, df) :: tl) = some e by
          simp only [validateAllBases, hlk, hval]] at h
        exact absurd h (by simp)
      | ok u =>
        cases u
        rw [show validateAllBases base_refs ((i, df) :: tl) =
            validateAllBases base_refs tl by
          simp only [validateAllBases, hlk, hval]] at h
        rcases List.mem_cons.mp hp with rfl | hp2
        · exact ⟨ref, hlk, hval⟩
        · exact ih h p hp2

/-- Claim C3: the base phase of `restore_from_state` is atomic: any error
raised during steps 1-4 (key normalization, completeness of supplied
bases, validation of every base) leaves the context and the reference map
exactly as supplied — empty when restoring into a fresh registry;
missing bases raise the `(name, id)`-listing error; and a successful check
means every supplied base was validated against its reference before any
registration happened. -/
theorem claim_C3_base_phase_atomic (engine : SqlEngine)
    (state : List DataFrameReference) (base_dataframes : List (String × DataFrame))
    (ctx : DataFrameContext) (references : List (String × DataFrameReference)) :
    (∀ e, baseRestoreCheck state base_dataframes = .error e →
      restoreFromState engine state base_dataframes ctx references =
        ((ctx, references), some e))
    ∧ (∀ normalized, normalizeDataframeMapping base_dataframes
          (dictOfList ((baseRefsOf state).map (fun p => (p.2.name, p.2.id)))) =
            .ok normalized →
        missingBaseIds (baseRefsOf state) normalized ≠ [] →
        baseRestoreCheck state base_dataframes =
          .error (.missingBases (missingBasePairs (baseRefsOf state) normalized)))
    ∧ (∀ normalized, baseRestoreCheck state base_dataframes = .ok normalized →
        ∀ p ∈ normalized, ∃ ref, List.lookup p.1 (baseRefsOf state) = some ref ∧
          validateDataFrameMatchesReference p.2 ref = .ok ()) := by
  refine ⟨?_, ?_, ?_⟩
  · intro e h
    unfold restoreFromState
    rw [h]
  · intro normalized hnorm hne
    simp only [baseRestoreCheck]
    rw [hnorm]
    simp [hne]
  · intro normalized h p hp
    simp only [baseRestoreCheck] at h
    cases hn : normalizeDataframeMapping base_dataframes
        (dictOfList ((baseRefsOf state).map (fun p => (p.2.name, p.2.id)))) with
    | error e =>
      simp only [hn] at h
      exact absurd h (by simp)
    | ok nm =>
      simp only [hn] at h
      by_cases hmiss : missingBaseIds (baseRefsOf state) nm = []
      · rw [if_pos hmiss] at h
        cases hval : validateAllBases (baseRefsOf state) nm with
        | some e =>
          simp only [hval] at h
          exact absurd h (by simp)
        | none =>
          simp only [hval, Except.ok.injEq] at h
          subst h
          exact validateAllBases_none (baseRefsOf state) nm hval p hp
      · rw [if_neg hmiss] at h
        exact absurd h (by simp)

/-! ### Theorems: export/restore round trip (C1) -/

/-- The reference built for a registration input keeps the generated id. -/
@[simp] theorem RegItem.ref_id (it : RegItem) : it.ref.id = it.id := rfl

/-- The reference built for a registration input keeps the display name. -/
@[simp] theorem RegItem.ref_name (it : RegItem) : it.ref.name = it.name := rfl

/-- A freshly registered reference is a base reference. -/
@[simp] theorem RegItem.ref_parent_ids (it : RegItem) : it.ref.parent_ids = [] := rfl

/-- A freshly registered reference has no source query. -/
@[simp] theorem RegItem.ref_source_query (it : RegItem) : it.ref.source_query = none := rfl

/-- Keys can be tested across an append. -/
theorem containsKey_append (a b : List (String × α)) (k : String) :
    containsKey (a ++ b) k = (containsKey a k || containsKey b k) := by
  unfold containsKey
  exact List.any_append

/-- Lookup in a pair list built by mapping a key function over a
duplicate-free carrier returns the mapped value of the looked-up element. -/
theorem lookup_map_self {β : Type} (f : α → String) (g : α → β) (l : List α)
    (hnd : (l.map f).Nodup) :
    ∀ x ∈ l, List.lookup (f x) (l.map (fun y => (f y, g y))) = some (g x) := by
  induction l with
  | nil => simp
  | cons a rest ih =>
    intro x hx
    rcases List.mem_cons.mp hx with rfl | hx2
    · simp [List.lookup]
    · have hna : f x ≠ f a := by
        intro h0
        have : f a ∈ rest.map f := h0 ▸ List.mem_map.mpr ⟨x, hx2, rfl⟩
        exact (List.nodup_cons.mp (by simpa using hnd)).1 this
      have hb : (f x == f a) = false := by simp [hna]
      simp only [List.map_cons, List.lookup, hb]
      exact ih (by simpa using (List.nodup_cons.mp (by simpa using hnd)).2) x hx2

/-- What a successful `DataFrameContext.register` did: the id was valid
and fresh and both stores grew by the one frame. -/
theorem context_register_ok (ctx : DataFrameContext) (i : String) (df : DataFrame)
    (ctx2 : DataFrameContext) (h : ctx.register i df = .ok ctx2) :
    ctx2 = { frames := ctx.frames ++ [(i, df)], sqlTables := ctx.sqlTables ++ [i] }
    ∧ dfIdMatch i = true ∧ containsKey ctx.frames i = false := by
  unfold DataFrameContext.register at h
  split at h
  · exact absurd h (by simp)
  · split at h
    · exact absurd h (by simp)
    · next h1 h2 =>
      refine ⟨(Except.ok.inj h).symm, ?_, by simpa using h2⟩
      simpa using h1

/-- What one successful `register_dataframe` call did: the name was not
id-shaped and not taken, the generated id was valid and fresh, and both
stores grew by this one dataframe. -/
theorem registerDataframe_ok_spec (rg : DataFrameRegistry) (it : RegItem)
    (pr : DataFrameReference × DataFrameRegistry)
    (h : registerDataframe rg it = .ok pr) :
    pr = (it.ref,
      { context := { frames := rg.context.frames ++ [(it.id, it.df)],
                     sqlTables := rg.context.sqlTables ++ [it.id] },
        references := dictInsert rg.references it.id it.ref })
    ∧ dfIdMatch it.id = true ∧ dfIdMatch it.name = false
    ∧ containsKey rg.context.frames it.id = false
    ∧ rg.references.any (fun p => p.2.name = it.name) = false := by
  unfold registerDataframe at h
  split at h
  · exact absurd h (by simp)
  · split at h
    · exact absurd h (by simp)
    · next hname hdup =>
      unfold DataFrameRegistry.register at h
      cases hr : DataFrameContext.register rg.context it.ref.id it.df with
      | error e =>
        rw [hr] at h
        exact absurd h (by simp)
      | ok ctx2 =>
        rw [hr] at h
        simp only [Except.ok.injEq] at h
        obtain ⟨hc, hv, hf⟩ := context_register_ok rg.context it.ref.id it.df ctx2 hr
        subst hc
        refine ⟨h.symm, hv, ?_, hf, ?_⟩
        · simpa using hname
        · simpa using hdup

/-- Characterization of a successful sequence of `register_dataframe`
calls: both stores grow by exactly the registered items, every id is
valid, every name avoids the id pattern, ids and names are fresh with
respect to the starting registry, and the ids and names of the sequence
are pairwise distinct. -/
theorem registerDataframesSeq_spec :
    ∀ (items : List RegItem) (rg reg : DataFrameRegistry),
      rg.references.map Prod.fst = rg.context.frames.map Prod.fst →
      registerDataframesSeq rg items = .ok reg →
      (reg.references = rg.references ++ items.map (fun it => (it.id, it.ref))
        ∧ reg.context.frames = rg.context.frames ++ items.map (fun it => (it.id, it.df))
        ∧ reg.context.sqlTables = rg.context.sqlTables ++ items.map (fun it => it.id)
        ∧ (∀ it ∈ items, dfIdMatch it.id = true ∧ dfIdMatch it.name = false)
        ∧ (∀ it ∈ items, it.id ∉ rg.context.frames.map Prod.fst
            ∧ ∀ q ∈ rg.references, q.2.name ≠ it.name)
        ∧ (items.map (fun it => it.id)).Nodup
        ∧ (items.map (fun it => it.name)).Nodup) := by
  intro items
  induction items with
  | nil =>
    intro rg reg hinv hok
    unfold registerDataframesSeq at hok
    simp only [Except.ok.injEq] at hok
    subst hok
    simp
  | cons it rest ih =>
    intro rg reg hinv hok
    unfold registerDataframesSeq at hok
    cases hcall : registerDataframe rg it with
    | error e =>
      rw [hcall] at hok
      exact absurd hok (by simp)
    | ok pr =>
      rw [hcall] at hok
      obtain ⟨hpr, hvalid, hname, hfresh, hdup⟩ := registerDataframe_ok_spec rg it pr hcall
      subst hpr
      set rg2 : DataFrameRegistry :=
        { context := { frames := rg.context.frames ++ [(it.id, it.df)],
                       sqlTables := rg.context.sqlTables ++ [it.id] },
          references := dictInsert rg.references it.id it.ref } with hrg2
      have hnotref : containsKey rg.references it.id = false := by
        rw [Bool.eq_false_iff]
        intro hc
        have := (containsKey_iff_mem_keys _ _).mp hc
        rw [hinv] at this
        rw [(containsKey_iff_mem_keys _ _).mpr this] at hfresh
        exact Bool.true_eq_false ▸ hfresh ▸ rfl
      have hrefs2 : rg2.references = rg.references ++ [(it.id, it.ref)] := by
        simp only [hrg2]
        unfold dictInsert
        rw [hnotref]
        simp
      have hinv2 : rg2.references.map Prod.fst = rg2.context.frames.map Prod.fst := by
        rw [hrefs2]
        simp only [hrg2, List.map_append]
        rw [hinv]
        simp
      obtain ⟨h1, h2, h3, h4, h5, h6, h7⟩ := ih rg2 reg hinv2 hok
      have hfr2 : ∀ j ∈ rest, j.id ≠ it.id := by
        intro j hj h0
        have := (h5 j hj).1
        apply this
        simp only [hrg2]
        rw [List.map_append, h0]
        exact List.mem_append_right _ (by simp)
      have hnm2 : ∀ j ∈ rest, j.name ≠ it.name := by
        intro j hj h0
        have := (h5 j hj).2 (it.id, it.ref) (by rw [hrefs2]; simp)
        simp only [RegItem.ref_name] at this
        exact this h0.symm
      refine ⟨?_, ?_, ?_, ?_, ?_, ?_, ?_⟩
      · rw [h1, hrefs2]
        simp
      · rw [h2]
        simp only [hrg2]
        simp
      · rw [h3]
        simp only [hrg2]
        simp
      · intro j hj
        rcases List.mem_cons.mp hj with rfl | hj2
        · exact ⟨hvalid, hname⟩
        · exact h4 j hj2
      · intro j hj
        rcases List.mem_cons.mp hj with rfl | hj2
        · constructor
          · intro hmem
            rw [(containsKey_iff_mem_keys _ _).mpr hmem] at hfresh
            exact Bool.true_eq_false ▸ hfresh ▸ rfl
          · intro q hq h0
            have : rg.references.any (fun p => p.2.name = j.name) = true :=
              List.any_eq_true.mpr ⟨q, hq, decide_eq_true h0⟩
            rw [this] at hdup
            exact Bool.true_eq_false ▸ hdup ▸ rfl
        · obtain ⟨ha, hb⟩ := h5 j hj2
          constructor
          · intro hmem
            apply ha
            simp only [hrg2]
            rw [List.map_append]
            exact List.mem_append_left _ hmem
          · intro q hq
            exact hb q (by rw [hrefs2]; exact List.mem_append_left _ hq)
      · exact List.nodup_cons.mpr
          ⟨fun hmem => by
            obtain ⟨j, hj, hje⟩ := List.mem_map.mp hmem
            exact hfr2 j hj hje, h6⟩
      · exact List.nodup_cons.mpr
          ⟨fun hmem => by
            obtain ⟨j, hj, hje⟩ := List.mem_map.mp hmem
            exact hnm2 j hj hje, h7⟩

/-- Normalization of a name-keyed mapping over the registered items: each
name resolves through the exported name-to-id table and the result is the
id-keyed mapping, in order. -/
theorem normalizeGo_items (items : List RegItem)
    (hnnd : (items.map (fun it => it.name)).Nodup) :
    ∀ (L : List RegItem) (acc : List (String × DataFrame)),
      (∀ it ∈ L, it ∈ items) →
      (∀ it ∈ L, dfIdMatch it.name = false) →
      (∀ it ∈ L, containsKey acc it.id = false) →
      (L.map (fun it => it.id)).Nodup →
      normalizeGo (items.map (fun it => (it.name, it.id)))
        (L.map (fun it => (it.name, it.df))) acc =
        .ok (acc ++ L.map (fun it => (it.id, it.df))) := by
  intro L
  induction L with
  | nil =>
    intro acc _ _ _ _
    simp [normalizeGo]
  | cons it rest ih =>
    intro acc hmem hnames hfresh hnd
    have hlk : List.lookup it.name (items.map (fun y => (y.name, y.id))) = some it.id :=
      lookup_map_self (fun y => y.name) (fun y => y.id) items hnnd it (hmem it (by simp))
    have hstep : dictInsert acc it.id it.df = acc ++ [(it.id, it.df)] := by
      unfold dictInsert
      rw [hfresh it (by simp)]
      simp
    simp only [List.map_cons, normalizeGo, hnames it (by simp), Bool.false_eq_true,
      if_false, hlk]
    rw [hstep]
    have := ih (acc ++ [(it.id, it.df)]) (fun j hj => hmem j (List.mem_cons_of_mem _ hj))
      (fun j hj => hnames j (List.mem_cons_of_mem _ hj))
      (fun j hj => by
        rw [containsKey_append]
        have h1 := hfresh j (List.mem_cons_of_mem _ hj)
        have h2 : containsKey [(it.id, it.df)] j.id = false := by
          have hne : j.id ≠ it.id := by
            intro h0
            have : it.id ∈ rest.map (fun it => it.id) :=
              h0 ▸ List.mem_map.mpr ⟨j, hj, rfl⟩
            exact (List.nodup_cons.mp (by simpa using hnd)).1 this
          simp [containsKey, Ne.symm hne]
        rw [h1, h2]
        rfl)
      (by simpa using (List.nodup_cons.mp (by simpa using hnd)).2)
    rw [this]
    simp

/-- Reflexivity of the tolerant comparator. -/
theorem valuesNearlyEqual_refl (v : PyVal) (t : ℚ) : valuesNearlyEqual v v t = true := by
  cases v with
  | none => rfl
  | str s => simp [valuesNearlyEqual]
  | num f =>
    cases f with
    | nan => rfl
    | val x =>
      simp only [valuesNearlyEqual, floatsNearlyEqual, decide_eq_true_eq]
      rw [sub_self, abs_zero]
      exact le_max_right _ _

/-- Recomputing a column summary from the same data matches the recorded
one regardless of the recorded description. -/
theorem compare_fromSeries_self (s : ColumnSummary) (d d2 : Option String) (t : ℚ) :
    compareColumnSummaries (fromSeriesModel s d2) (fromSeriesModel s d) t = [] := by
  unfold compareColumnSummaries exactEntry approxEntry fromSeriesModel
  simp [valuesNearlyEqual_refl]

/-- A dataframe validates against any reference whose recorded summaries
are, per column, the recomputed ones (with any descriptions). -/
theorem validateColumnSummaries_self (ref : DataFrameReference) :
    ∀ (cols : List (String × ColumnSummary)),
      (∀ p ∈ cols, ∃ d, List.lookup p.1 ref.column_summaries =
        some (fromSeriesModel p.2 d)) →
      validateColumnSummaries ref cols = .ok () := by
  intro cols
  induction cols with
  | nil => intro _; rfl
  | cons hd tl ih =>
    intro h
    obtain ⟨d, hd2⟩ := h hd (by simp)
    have hcmp : compareColumnSummaries (fromSeriesModel hd.2 none)
        (fromSeriesModel hd.2 d) RelTolDefault = [] := compare_fromSeries_self _ _ _ _
    calc validateColumnSummaries ref (hd :: tl)
        = validateColumnSummaries ref tl := by
          rw [show (hd : String × ColumnSummary) = (hd.1, hd.2) from rfl]
          simp only [validateColumnSummaries, hd2, hcmp]
      _ = .ok () := ih (fun p hp => h p (List.mem_cons_of_mem _ hp))

/-- A registered dataframe validates against its own freshly built
reference: shapes, column names and recomputed statistics all agree
(column descriptions are not compared). -/
theorem validate_fromDataFrame (it : RegItem)
    (hcnd : (it.df.cols.map Prod.fst).Nodup) :
    validateDataFrameMatchesReference it.df it.ref = .ok () := by
  unfold validateDataFrameMatchesReference
  rw [if_neg (by simp [RegItem.ref, DataFrameReference.fromDataFrame])]
  rw [if_neg (by simp [RegItem.ref, DataFrameReference.fromDataFrame, DataFrame.columns])]
  apply validateColumnSummaries_self
  intro p hp
  refine ⟨List.lookup p.1 it.column_descriptions, ?_⟩
  show List.lookup p.1 (it.df.cols.map
    (fun q => (q.1, fromSeriesModel q.2 (List.lookup q.1 it.column_descriptions)))) = _
  have := lookup_map_self (fun q : String × ColumnSummary => q.1)
    (fun q => fromSeriesModel q.2 (List.lookup q.1 it.column_descriptions))
    it.df.cols (by simpa using hcnd) p hp
  simpa using this

/-- The validation pass over all bases of the round trip reports nothing. -/
theorem validateAllBases_items (items : List RegItem)
    (hind : (items.map (fun it => it.id)).Nodup)
    (hcols : ∀ it ∈ items, (it.df.cols.map Prod.fst).Nodup) :
    ∀ (L : List RegItem), (∀ it ∈ L, it ∈ items) →
      validateAllBases (items.map (fun it => (it.id, it.ref)))
        (L.map (fun it => (it.id, it.df))) = none := by
  intro L
  induction L with
  | nil => intro _; rfl
  | cons it rest ih =>
    intro hmem
    have hlk : List.lookup it.id (items.map (fun y => (y.id, y.ref))) = some it.ref :=
      lookup_map_self (fun y => y.id) (fun y => y.ref) items hind it (hmem it (by simp))
    have hval : validateDataFrameMatchesReference it.df it.ref = .ok () :=
      validate_fromDataFrame it (hcols it (hmem it (by simp)))
    simp only [List.map_cons, validateAllBases, hlk, hval]
    exact ih (fun j hj => hmem j (List.mem_cons_of_mem _ hj))

/-- Registering the validated bases appends them, in order, to both stores
of the fresh registry. -/
theorem registerBases_items (items : List RegItem)
    (hind : (items.map (fun it => it.id)).Nodup)
    (hvalid : ∀ it ∈ items, dfIdMatch it.id = true) :
    ∀ (L : List RegItem) (ctx : DataFrameContext)
      (refs : List (String × DataFrameReference)),
      (∀ it ∈ L, it ∈ items) →
      (L.map (fun it => it.id)).Nodup →
      (∀ it ∈ L, containsKey ctx.frames it.id = false) →
      (∀ it ∈ L, containsKey refs it.id = false) →
      registerBases (items.map (fun it => (it.id, it.ref)))
        (L.map (fun it => (it.id, it.df))) ctx refs =
        (({ frames := ctx.frames ++ L.map (fun it => (it.id, it.df)),
            sqlTables := ctx.sqlTables ++ L.map (fun it => it.id) },
          refs ++ L.map (fun it => (it.id, it.ref))), none) := by
  intro L
  induction L with
  | nil =>
    intro ctx refs _ _ _ _
    simp [registerBases]
  | cons it rest ih =>
    intro ctx refs hmem hnd hfc hfr
    have hlk : List.lookup it.id (items.map (fun y => (y.id, y.ref))) = some it.ref :=
      lookup_map_self (fun y => y.id) (fun y => y.ref) items hind it (hmem it (by simp))
    have hreg : DataFrameContext.register ctx it.ref.id it.df =
        .ok { frames := ctx.frames ++ [(it.id, it.df)],
              sqlTables := ctx.sqlTables ++ [it.id] } := by
      unfold DataFrameContext.register
      rw [if_neg (by simp [hvalid it (hmem it (by simp))])]
      rw [if_neg (by simp [hfc it (by simp)])]
      rfl
    have hins : dictInsert refs it.ref.id it.ref = refs ++ [(it.id, it.ref)] := by
      unfold dictInsert
      rw [show (it.ref.id : String) = it.id from rfl, hfr it (by simp)]
      simp
    simp only [List.map_cons, registerBases, hlk, hreg, hins]
    have hrec := ih ⟨ctx.frames ++ [(it.id, it.df)], ctx.sqlTables ++ [it.id]⟩
      (refs ++ [(it.id, it.ref)])
      (fun j hj => hmem j (List.mem_cons_of_mem _ hj))
      (by simpa using (List.nodup_cons.mp (by simpa using hnd)).2)
      (fun j hj => by
        have hne : j.id ≠ it.id := by
          intro h0
          have : it.id ∈ rest.map (fun it => it.id) :=
            h0 ▸ List.mem_map.mpr ⟨j, hj, rfl⟩
          exact (List.nodup_cons.mp (by simpa using hnd)).1 this
        show containsKey (ctx.frames ++ [(it.id, it.df)]) j.id = false
        rw [containsKey_append, hfc j (List.mem_cons_of_mem _ hj)]
        simp [containsKey, Ne.symm hne])
      (fun j hj => by
        have hne : j.id ≠ it.id := by
          intro h0
          have : it.id ∈ rest.map (fun it => it.id) :=
            h0 ▸ List.mem_map.mpr ⟨j, hj, rfl⟩
          exact (List.nodup_cons.mp (by simpa using hnd)).1 this
        rw [containsKey_append, hfr j (List.mem_cons_of_mem _ hj)]
        simp [containsKey, Ne.symm hne])
    rw [hrec]
    simp

/-- The Kahn rounds on an empty remaining graph return the accumulator. -/
theorem kahnAux_nil (fuel : Nat) (acc : List String) :
    kahnAux fuel [] acc = .ok acc := by
  cases fuel <;> simp [kahnAux]

/-- On a state of base references only, the dependency sort returns the
references unchanged: every node is ready in the first round. -/
theorem sortRefs_all_base (refs : List DataFrameReference)
    (hnd : (refs.map (fun r => r.id)).Nodup)
    (hbase : ∀ r ∈ refs, r.parent_ids = []) :
    sortReferencesByDependencyOrder refs = .ok refs := by
  have hbg := buildGraph_eq refs hnd
  have hbg2 : buildGraph refs = refs.map (fun r => (r.id, ([] : List String))) := by
    rw [hbg]
    apply List.map_congr_left
    intro r hr
    rw [hbase r hr]
    rfl
  have hks : kahnSort (buildGraph refs) = .ok (refs.map (fun r => r.id)) := by
    unfold kahnSort
    rw [hbg2]
    cases refs with
    | nil => simp [kahnAux]
    | cons r rest =>
      have hne : ¬ (((r :: rest).map (fun r => (r.id, ([] : List String)))).isEmpty = true) := by
        simp
      have hready : kahnStepReady ((r :: rest).map (fun r => (r.id, ([] : List String)))) =
          (r :: rest).map (fun r => (r.id, ([] : List String))) := by
        unfold kahnStepReady
        apply List.filter_eq_self.mpr
        intro p hp
        obtain ⟨s, _, rfl⟩ := List.mem_map.mp hp
        rfl
      have hrest : kahnStepRest ((r :: rest).map (fun r => (r.id, ([] : List String)))) = [] := by
        unfold kahnStepRest
        apply List.filter_eq_nil_iff.mpr
        intro p hp
        obtain ⟨s, _, rfl⟩ := List.mem_map.mp hp
        simp [kahnReady]
      show kahnAux (((r :: rest).map (fun r => (r.id, ([] : List String)))).length) _ [] = _
      rw [show (((r :: rest).map (fun r => (r.id, ([] : List String)))).length)
        = rest.length + 1 by simp]
      unfold kahnAux
      rw [if_neg hne, if_neg (by rw [hready]; simp), hrest, hready, kahnAux_nil]
      simp [List.map_map, Function.comp_def]
  simp only [sortReferencesByDependencyOrder]
  rw [dictOfList_eq_self _ (by simpa [List.map_map, Function.comp_def] using hnd), hks]
  have : ∀ (L : List DataFrameReference), (∀ r ∈ L, r ∈ refs) →
      (L.map (fun r => r.id)).filterMap
        (fun i => List.lookup i (refs.map (fun s => (s.id, s)))) = L := by
    intro L
    induction L with
    | nil => simp
    | cons a rest ih =>
      intro hm
      simp only [List.map_cons, List.filterMap_cons,
        lookup_refs_self refs hnd a (hm a (by simp))]
      rw [ih (fun j hj => hm j (List.mem_cons_of_mem _ hj))]
  simp only [this refs (fun r hr => hr)]

/-- The replay loop skips every reference that is already registered. -/
theorem replayLoop_all_registered (engine : SqlEngine) :
    ∀ (sorted : List DataFrameReference) (ctx : DataFrameContext)
      (refs : List (String × DataFrameReference)),
      (∀ r ∈ sorted, containsKey refs r.id = true) →
      replayLoop engine sorted ctx refs = ((ctx, refs), none) := by
  intro sorted
  induction sorted with
  | nil => intro ctx refs _; rfl
  | cons r rest ih =>
    intro ctx refs h
    unfold replayLoop
    rw [if_pos (h r (by simp))]
    exact ih ctx refs (fun j hj => h j (List.mem_cons_of_mem _ hj))

/-- Claim C1: for a toolkit whose registered references are all base
references (built by a sequence of `register_dataframe` calls, so
`parent_ids` is empty and `source_query` null for each), restoring
`export_state()` with the same base dataframes into a fresh registry
succeeds and produces exactly the original reference map: the same ids,
the same names, equal column summaries, in the same number.  The
column-name sets of the dataframes are duplicate-free, as polars
guarantees. -/
theorem claim_C1_roundtrip (items : List RegItem) (reg : DataFrameRegistry)
    (engine : SqlEngine)
    (hreg : registerDataframesSeq DataFrameRegistry.empty items = .ok reg)
    (hcols : ∀ it ∈ items, (it.df.cols.map Prod.fst).Nodup) :
    reg.references = items.map (fun it => (it.id, it.ref))
    ∧ restoreFromState engine (exportState reg)
        (items.map (fun it => (it.name, it.df))) DataFrameContext.empty [] =
      (({ frames := items.map (fun it => (it.id, it.df)),
          sqlTables := items.map (fun it => it.id) },
        reg.references), none) := by
  obtain ⟨h1, h2, h3, h4, h5, h6, h7⟩ :=
    registerDataframesSeq_spec items DataFrameRegistry.empty reg rfl hreg
  have h1s : reg.references = items.map (fun it => (it.id, it.ref)) := by
    rw [h1]
    rfl
  refine ⟨h1s, ?_⟩
  have hstate : exportState reg = items.map (fun it => it.ref) := by
    unfold exportState
    rw [h1s, List.map_map]
    rfl
  have hbase : baseRefsOf (exportState reg) = items.map (fun it => (it.id, it.ref)) := by
    unfold baseRefsOf
    rw [hstate]
    have hfil : (items.map (fun it => it.ref)).filter (fun r => r.parent_ids = []) =
        items.map (fun it => it.ref) := by
      apply List.filter_eq_self.mpr
      intro r hr
      obtain ⟨it, _, rfl⟩ := List.mem_map.mp hr
      simp
    rw [hfil, List.map_map]
    have hfun : ((fun r : DataFrameReference => (r.id, r)) ∘ (fun it : RegItem => it.ref))
        = (fun it : RegItem => (it.id, it.ref)) := rfl
    rw [hfun]
    exact dictOfList_eq_self _ (by simpa [List.map_map, Function.comp_def] using h6)
  have hn2i : dictOfList ((items.map (fun it => (it.id, it.ref))).map
      (fun p => (p.2.name, p.2.id))) = items.map (fun it => (it.name, it.id)) := by
    rw [List.map_map]
    have hfun : ((fun p : String × DataFrameReference => (p.2.name, p.2.id)) ∘
        (fun it : RegItem => (it.id, it.ref))) = (fun it : RegItem => (it.name, it.id)) := rfl
    rw [hfun]
    exact dictOfList_eq_self _ (by simpa [List.map_map, Function.comp_def] using h7)
  have hnorm : normalizeDataframeMapping (items.map (fun it => (it.name, it.df)))
      (items.map (fun it => (it.name, it.id))) =
      .ok (items.map (fun it => (it.id, it.df))) := by
    unfold normalizeDataframeMapping
    have := normalizeGo_items items h7 items [] (fun j hj => hj)
      (fun j hj => (h4 j hj).2) (fun j _ => rfl) h6
    simpa using this
  have hmiss : missingBaseIds (items.map (fun it => (it.id, it.ref)))
      (items.map (fun it => (it.id, it.df))) = [] := by
    unfold missingBaseIds
    apply List.filter_eq_nil_iff.mpr
    intro i hi
    obtain ⟨p, hp, rfl⟩ := List.mem_map.mp hi
    obtain ⟨it, hit, rfl⟩ := List.mem_map.mp hp
    have hck : containsKey (items.map (fun it => (it.id, it.df))) it.id = true := by
      apply (containsKey_iff_mem_keys _ _).mpr
      rw [List.map_map]
      exact List.mem_map.mpr ⟨it, hit, rfl⟩
    simp [hck]
  have hval : validateAllBases (items.map (fun it => (it.id, it.ref)))
      (items.map (fun it => (it.id, it.df))) = none :=
    validateAllBases_items items h6 hcols items (fun j hj => hj)
  have hchk : baseRestoreCheck (exportState reg)
      (items.map (fun it => (it.name, it.df))) =
      .ok (items.map (fun it => (it.id, it.df))) := by
    simp only [baseRestoreCheck]
    rw [hbase, hn2i, hnorm]
    simp only [hmiss, if_pos, hval]
  have hregb : registerBases (items.map (fun it => (it.id, it.ref)))
      (items.map (fun it => (it.id, it.df))) DataFrameContext.empty [] =
      (({ frames := items.map (fun it => (it.id, it.df)),
          sqlTables := items.map (fun it => it.id) },
        items.map (fun it => (it.id, it.ref))), none) := by
    have := registerBases_items items h6 (fun j hj => (h4 j hj).1) items
      DataFrameContext.empty [] (fun j hj => hj) h6 (fun j _ => rfl) (fun j _ => rfl)
    simpa [DataFrameContext.empty] using this
  have hsort : sortReferencesByDependencyOrder (exportState reg) = .ok (exportState reg) := by
    apply sortRefs_all_base
    · rw [hstate]
      simpa [List.map_map, Function.comp_def] using h6
    · intro r hr
      rw [hstate] at hr
      obtain ⟨it, _, rfl⟩ := List.mem_map.mp hr
      simp
  have hreplay : replayLoop engine (exportState reg)
      { frames := items.map (fun it => (it.id, it.df)),
        sqlTables := items.map (fun it => it.id) }
      (items.map (fun it => (it.id, it.ref))) =
      (({ frames := items.map (fun it => (it.id, it.df)),
          sqlTables := items.map (fun it => it.id) },
        items.map (fun it => (it.id, it.ref))), none) := by
    apply replayLoop_all_registered
    intro r hr
    rw [hstate] at hr
    obtain ⟨it, hit, rfl⟩ := List.mem_map.mp hr
    apply (containsKey_iff_mem_keys _ _).mpr
    rw [List.map_map]
    exact List.mem_map.mpr ⟨it, hit, rfl⟩
  simp only [restoreFromState, hchk, hbase, hregb]
  simp only [reconstructDerivatives, hsort, hreplay, h1s]

/-- Claim C1 witness: the concrete one-table toolkit round-trips through
`export_state` and `restore_from_state`. -/
theorem claim_C1_witness :
    rgSalesModel.references = [itemSalesModel].map (fun it => (it.id, it.ref))
    ∧ restoreFromState engineFailModel (exportState rgSalesModel)
        ([itemSalesModel].map (fun it => (it.name, it.df))) DataFrameContext.empty [] =
      (({ frames := [itemSalesModel].map (fun it => (it.id, it.df)),
          sqlTables := [itemSalesModel].map (fun it => it.id) },
        rgSalesModel.references), none) :=
  claim_C1_roundtrip [itemSalesModel] rgSalesModel engineFailModel rfl (by decide)

/-! ### Theorems: SQL table validation (C6) -/

/-- Insertion keeps exactly the inserted element and the old ones. -/
theorem mem_insertSorted (a b : String) (l : List String) :
    a ∈ insertSorted b l ↔ a = b ∨ a ∈ l := by
  induction l with
  | nil => simp [insertSorted]
  | cons x t ih =>
    unfold insertSorted
    split
    · simp
    · simp only [List.mem_cons, ih]
      tauto

/-- Sorting keeps membership. -/
theorem mem_sortStrings (a : String) (l : List String) :
    a ∈ sortStrings l ↔ a ∈ l := by
  induction l with
  | nil => simp [sortStrings]
  | cons x t ih =>
    unfold sortStrings at ih ⊢
    rw [List.foldr_cons, mem_insertSorted, ih]
    simp

/-- `sorted(set(xs))` keeps membership. -/
theorem mem_sortedDedup (a : String) (l : List String) :
    a ∈ sortedDedup l ↔ a ∈ l := by
  unfold sortedDedup
  rw [mem_sortStrings, List.mem_dedup]

/-- The scenario-B query: `SELECT a FROM unknown_table`. -/
def scenarioBQuery : SqlQuery :=
  .select .nil (.cons (.table "unknown_table" "unknown_table") .nil)
    [{ qualifier := "", name := "a" }]

/-- A WITH query whose body selects from the CTE:
`WITH c AS (SELECT x FROM users) SELECT y FROM c`. -/
def cteExampleQuery : SqlQuery :=
  .select
    (.cons "c" (.select .nil (.cons (.table "users" "users") .nil)
      [{ qualifier := "", name := "x" }]) .nil)
    (.cons (.table "c" "c") .nil)
    [{ qualifier := "", name := "y" }]

/-- A derived-subquery query:
`SELECT y FROM (SELECT x FROM users) sub`. -/
def subqueryExampleQuery : SqlQuery :=
  .select .nil
    (.cons (.derived (.select .nil (.cons (.table "users" "users") .nil)
      [{ qualifier := "", name := "x" }]) "sub") .nil)
    [{ qualifier := "", name := "y" }]

/-- Briderion between the `contains` test and membership. -/
theorem contains_eq_true_iff (l : List String) (x : String) :
    l.contains x = true ↔ x ∈ l := List.elem_iff

/-- A failed `contains` test is non-membership. -/
theorem contains_eq_false_iff (l : List String) (x : String) :
    l.contains x = false ↔ x ∉ l := by
  rw [Bool.eq_false_iff]
  exact not_congr (contains_eq_true_iff l x)

/-- The invalid-tables list of `validate_sql_tables`, before sorting. -/
theorem mem_invalid_filter (q : SqlQuery) (valid_tables : List String) (t : String) :
    t ∈ sortedDedup ((extractTableNames q).filter
      (fun t => !(valid_tables.map strToLower).contains t)) ↔
    (t ∈ extractTableNames q ∧ t ∉ valid_tables.map strToLower) := by
  rw [mem_sortedDedup, List.mem_filter]
  constructor
  · rintro ⟨h1, h2⟩
    rw [Bool.not_eq_eq_eq_not, Bool.not_true, contains_eq_false_iff] at h2
    exact ⟨h1, h2⟩
  · rintro ⟨h1, h2⟩
    refine ⟨h1, ?_⟩
    rw [Bool.not_eq_eq_eq_not, Bool.not_true, contains_eq_false_iff]
    exact h2

/-- Claim C6: table validation raises `SQLTableError` exactly when no valid
table is referenced or some referenced table is outside the valid set; the
carried `invalid_tables` are exactly the referenced-but-invalid
(lower-cased) tables; the scope walk does not classify CTEs or derived
subqueries as real tables; and scenario B raises with
`invalid_tables == ["unknown_table"]`. -/
theorem claim_C6_table_validation (q : SqlQuery) (valid_tables : List String) :
    ((∃ e, validateSqlTables q valid_tables = .error e) ↔
      ((¬ ∃ t ∈ extractTableNames q, t ∈ valid_tables.map strToLower) ∨
        (∃ t ∈ extractTableNames q, t ∉ valid_tables.map strToLower)))
    ∧ (∀ inv, validateSqlTables q valid_tables = .error (.tableError inv) →
        ∀ t, t ∈ inv ↔ (t ∈ extractTableNames q ∧ t ∉ valid_tables.map strToLower))
    ∧ tablesOfQuery cteExampleQuery [] = ["users"]
    ∧ tablesOfQuery subqueryExampleQuery [] = ["users"]
    ∧ validateSqlTables scenarioBQuery ["users"] = .error (.tableError ["unknown_table"]) := by
  have hlowusers : strToLower "users" = "users" := by decide
  have hcte : tablesOfQuery cteExampleQuery [] = ["users"] := by
    simp only [cteExampleQuery, tablesOfQuery, tablesOfCtes, tablesOfSources, cteNames]
    norm_num [hlowusers]
  have hsubq : tablesOfQuery subqueryExampleQuery [] = ["users"] := by
    simp only [subqueryExampleQuery, tablesOfQuery, tablesOfCtes, tablesOfSources, cteNames]
    norm_num [hlowusers]
  have hunf : validateSqlTables q valid_tables =
      (if extractTableNames q = [] then .error (.tableError [])
       else
         match sortedDedup ((extractTableNames q).filter
            (fun t => !(valid_tables.map strToLower).contains t)) with
         | [] => .ok ()
         | invalid => .error (.tableError invalid)) := rfl
  refine ⟨?_, ?_, hcte, hsubq, ?_⟩
  · rw [hunf]
    by_cases href : extractTableNames q = []
    · rw [if_pos href]
      simp [href]
    · rw [if_neg href]
      cases hinv : sortedDedup ((extractTableNames q).filter
          (fun t => !(valid_tables.map strToLower).contains t)) with
      | nil =>
        simp only [reduceCtorEq, exists_false, false_iff, not_or, not_not]
        have hall : ∀ t ∈ extractTableNames q, t ∈ valid_tables.map strToLower := by
          intro t ht
          by_contra hc
          have : t ∈ sortedDedup ((extractTableNames q).filter
              (fun t => !(valid_tables.map strToLower).contains t)) :=
            (mem_invalid_filter q valid_tables t).mpr ⟨ht, hc⟩
          rw [hinv] at this
          simp at this
        obtain ⟨t0, ht0⟩ := List.exists_mem_of_ne_nil _ href
        constructor
        · exact ⟨t0, ht0, hall t0 ht0⟩
        · push_neg
          exact hall
      | cons a as =>
        have ha := (mem_invalid_filter q valid_tables a).mp (by rw [hinv]; simp)
        exact iff_of_true ⟨SqlError.tableError (a :: as), rfl⟩ (Or.inr ⟨a, ha.1, ha.2⟩)
  · intro inv herr t
    rw [hunf] at herr
    by_cases href : extractTableNames q = []
    · rw [if_pos href] at herr
      simp only [Except.error.injEq, SqlError.tableError.injEq] at herr
      subst herr
      simp [href]
    · rw [if_neg href] at herr
      cases hinv : sortedDedup ((extractTableNames q).filter
          (fun t => !(valid_tables.map strToLower).contains t)) with
      | nil =>
        rw [hinv] at herr
        exact absurd herr (by simp)
      | cons a as =>
        rw [hinv] at herr
        simp only [Except.error.injEq, SqlError.tableError.injEq] at herr
        subst herr
        rw [← hinv]
        exact mem_invalid_filter q valid_tables t
  · have hx : extractTableNames scenarioBQuery = ["unknown_table"] := by
      simp only [scenarioBQuery, extractTableNames, tablesOfQuery, tablesOfCtes,
        tablesOfSources, cteNames]
      have : strToLower "unknown_table" = "unknown_table" := by decide
      simp [this]
    have hunf2 : validateSqlTables scenarioBQuery ["users"] =
        (if extractTableNames scenarioBQuery = [] then .error (.tableError [])
         else
           match sortedDedup ((extractTableNames scenarioBQuery).filter
              (fun t => !((["users"] : List String).map strToLower).contains t)) with
           | [] => .ok ()
           | invalid => .error (.tableError invalid)) := rfl
    rw [hunf2, hx]
    rw [if_neg (by decide)]
    have hsd : sortedDedup (List.filter
        (fun t => !((["users"] : List String).map strToLower).contains t)
        ["unknown_table"]) = ["unknown_table"] := by decide
    rw [hsd]

/-- `addInvalid` never returns the empty dict. -/
theorem addInvalid_ne_nil (l : List (String × List String)) (t c : String) :
    addInvalid l t c ≠ [] := by
  cases l with
  | nil => simp [addInvalid]
  | cons p rest =>
    obtain ⟨k, cs⟩ := p
    simp only [addInvalid]
    split_ifs <;> simp

/-- Folding `addInvalid` over any violation list preserves nonemptiness of
the accumulator. -/
theorem foldl_addInvalid_ne_nil (vs : List (String × String))
    (acc : List (String × List String)) (h : acc ≠ []) :
    vs.foldl (fun a p => addInvalid a p.1 p.2) acc ≠ [] := by
  induction vs generalizing acc with
  | nil => simpa using h
  | cons p vs ih => exact ih _ (addInvalid_ne_nil _ _ _)

/-- The collected invalid-column dict is empty exactly when the scope walk
finds no violation. -/
theorem collectInvalid_eq_nil_iff (q : SqlQuery) (schema : List (String × List String)) :
    collectInvalidColumns q schema = [] ↔ violationsQuery q [] schema = [] := by
  rw [collectInvalidColumns]
  cases hv : violationsQuery q [] schema with
  | nil => simp
  | cons p vs =>
    simp only [List.foldl_cons]
    constructor
    · intro h
      exact absurd h (foldl_addInvalid_ne_nil vs _ (addInvalid_ne_nil _ _ _))
    · intro h
      simp at h

/-- Membership in the dict after one `addInvalid` step. -/
theorem mem_addInvalid (l : List (String × List String)) (t0 c0 t c : String) :
    (∃ cs, (t, cs) ∈ addInvalid l t0 c0 ∧ c ∈ cs) ↔
    ((∃ cs, (t, cs) ∈ l ∧ c ∈ cs) ∨ (t = t0 ∧ c = c0)) := by
  induction l with
  | nil =>
    constructor
    · rintro ⟨cs, hmem, hc⟩
      simp only [addInvalid, List.mem_singleton, Prod.mk.injEq] at hmem
      obtain ⟨ht, hcs⟩ := hmem
      subst hcs
      simp only [List.mem_singleton] at hc
      exact Or.inr ⟨ht, hc⟩
    · rintro (⟨cs, hmem, _⟩ | ⟨ht, hc⟩)
      · exact absurd hmem (List.not_mem_nil _)
      · subst ht
        subst hc
        exact ⟨[c], by simp [addInvalid], by simp⟩
  | cons p rest ih =>
    obtain ⟨k, cs0⟩ := p
    by_cases hk : k = t0
    · subst hk
      by_cases hc0 : cs0.contains c0 = true
      · have hcm : c0 ∈ cs0 := (contains_eq_true_iff _ _).mp hc0
        have hred : addInvalid ((k, cs0) :: rest) k c0 = (k, cs0) :: rest := by
          simp [addInvalid, hcm]
        rw [hred]
        constructor
        · exact Or.inl
        · rintro (h | ⟨ht, hc⟩)
          · exact h
          · subst ht
            subst hc
            exact ⟨cs0, List.mem_cons_self _ _, (contains_eq_true_iff _ _).mp hc0⟩
      · have hcm : c0 ∉ cs0 := fun hm => hc0 ((contains_eq_true_iff _ _).mpr hm)
        have hred : addInvalid ((k, cs0) :: rest) k c0 = (k, cs0 ++ [c0]) :: rest := by
          simp [addInvalid, hcm]
        rw [hred]
        constructor
        · rintro ⟨cs, hmem, hc⟩
          rw [List.mem_cons] at hmem
          rcases hmem with heq | hmem
          · rw [Prod.mk.injEq] at heq
            obtain ⟨ht, hcs⟩ := heq
            subst hcs
            rw [List.mem_append, List.mem_singleton] at hc
            rcases hc with hc | hc
            · subst ht
              exact Or.inl ⟨cs0, List.mem_cons_self _ _, hc⟩
            · exact Or.inr ⟨ht, hc⟩
          · exact Or.inl ⟨cs, List.mem_cons_of_mem _ hmem, hc⟩
        · rintro (⟨cs, hmem, hc⟩ | ⟨ht, hc⟩)
          · rw [List.mem_cons] at hmem
            rcases hmem with heq | hmem
            · rw [Prod.mk.injEq] at heq
              obtain ⟨ht, hcs⟩ := heq
              subst hcs
              subst ht
              exact ⟨cs ++ [c0], List.mem_cons_self _ _, List.mem_append.mpr (Or.inl hc)⟩
            · exact ⟨cs, List.mem_cons_of_mem _ hmem, hc⟩
          · subst ht
            subst hc
            exact ⟨cs0 ++ [c], List.mem_cons_self _ _,
              List.mem_append.mpr (Or.inr (List.mem_singleton.mpr rfl))⟩
    · have hred : addInvalid ((k, cs0) :: rest) t0 c0 = (k, cs0) :: addInvalid rest t0 c0 := by
        simp [addInvalid, hk]
      rw [hred]
      constructor
      · rintro ⟨cs, hmem, hc⟩
        rw [List.mem_cons] at hmem
        rcases hmem with heq | hmem
        · rw [Prod.mk.injEq] at heq
          obtain ⟨ht, hcs⟩ := heq
          subst hcs
          subst ht
          exact Or.inl ⟨cs, List.mem_cons_self _ _, hc⟩
        · rcases ih.mp ⟨cs, hmem, hc⟩ with h | h
          · obtain ⟨cs2, hm2, hc2⟩ := h
            exact Or.inl ⟨cs2, List.mem_cons_of_mem _ hm2, hc2⟩
          · exact Or.inr h
      · rintro (⟨cs, hmem, hc⟩ | h)
        · rw [List.mem_cons] at hmem
          rcases hmem with heq | hmem
          · rw [Prod.mk.injEq] at heq
            obtain ⟨ht, hcs⟩ := heq
            subst hcs
            subst ht
            exact ⟨cs, List.mem_cons_self _ _, hc⟩
          · obtain ⟨cs2, hm2, hc2⟩ := ih.mpr (Or.inl ⟨cs, hmem, hc⟩)
            exact ⟨cs2, List.mem_cons_of_mem _ hm2, hc2⟩
        · obtain ⟨cs2, hm2, hc2⟩ := ih.mpr (Or.inr h)
          exact ⟨cs2, List.mem_cons_of_mem _ hm2, hc2⟩

/-- Membership in the dict built by folding `addInvalid` over the
violation list. -/
theorem mem_foldl_addInvalid (vs : List (String × String))
    (acc : List (String × List String)) (t c : String) :
    (∃ cs, (t, cs) ∈ vs.foldl (fun a p => addInvalid a p.1 p.2) acc ∧ c ∈ cs) ↔
    ((∃ cs, (t, cs) ∈ acc ∧ c ∈ cs) ∨ (t, c) ∈ vs) := by
  induction vs generalizing acc with
  | nil => simp
  | cons p vs ih =>
    obtain ⟨t0, c0⟩ := p
    rw [List.foldl_cons, ih, mem_addInvalid, List.mem_cons, Prod.mk.injEq]
    exact or_assoc

/-- Claim C7: column validation checks only columns that resolve to real
base tables present in the supplied schema; alias-map entries skip derived
subqueries and CTE-named tables; an unqualified column resolves only when
the scope holds exactly one base table, otherwise it is skipped as
ambiguous; a column resolving to no table or to a table outside the schema
contributes no violation; validation succeeds exactly when the scope walk
finds no violation, and any violation raises `SQLColumnError` whose
table-keyed payload carries every violating `(table, column)` pair, not
just the first. -/
theorem claim_C7_column_validation (q : SqlQuery) (table_columns : List (String × List String)) :
    (validateSqlColumns q table_columns = .ok () ↔
      violationsQuery q [] (normalizeSchema table_columns) = [])
    ∧ (violationsQuery q [] (normalizeSchema table_columns) ≠ [] →
        ∃ inv, validateSqlColumns q table_columns = .error (.columnError inv))
    ∧ (∀ inv, validateSqlColumns q table_columns = .error (.columnError inv) →
        ∀ t c, (∃ cs, (t, cs) ∈ inv ∧ c ∈ cs) ↔
          (t, c) ∈ violationsQuery q [] (normalizeSchema table_columns))
    ∧ (∀ (sub : SqlQuery) (al : String) (rest : SqlSources) (visible : List String)
        (acc : List (String × String)),
        aliasMapGo visible (.cons (.derived sub al) rest) acc = aliasMapGo visible rest acc)
    ∧ (∀ (n a : String) (rest : SqlSources) (visible : List String)
        (acc : List (String × String)), n ∈ visible →
        aliasMapGo visible (.cons (.table n a) rest) acc = aliasMapGo visible rest acc)
    ∧ (∀ (c : SqlColumn) (am : List (String × String)),
        c.qualifier = "" → ∀ b1 b2 rest2, am.map (fun p => p.2) = b1 :: b2 :: rest2 →
        resolveColumnToBaseTable c am = none)
    ∧ (∀ (c : SqlColumn) (am : List (String × String)) (b : String),
        c.qualifier = "" → am.map (fun p => p.2) = [b] →
        resolveColumnToBaseTable c am = some b)
    ∧ (∀ (c : SqlColumn) (am : List (String × String)) (schema : List (String × List String)),
        resolveColumnToBaseTable c am = none → columnViolation c am schema = none)
    ∧ (∀ (c : SqlColumn) (am : List (String × String)) (schema : List (String × List String))
        (b : String), resolveColumnToBaseTable c am = some b →
        List.lookup b schema = none → columnViolation c am schema = none) := by
  refine ⟨?_, ?_, ?_, ?_, ?_, ?_, ?_, ?_, ?_⟩
  · constructor
    · intro h
      rw [← collectInvalid_eq_nil_iff]
      cases hcol : collectInvalidColumns q (normalizeSchema table_columns) with
      | nil => rfl
      | cons a as =>
        simp only [validateSqlColumns, hcol] at h
        exact Except.noConfusion h
    · intro h
      have hcol : collectInvalidColumns q (normalizeSchema table_columns) = [] :=
        (collectInvalid_eq_nil_iff _ _).mpr h
      simp only [validateSqlColumns, hcol]
  · intro h
    cases hcol : collectInvalidColumns q (normalizeSchema table_columns) with
    | nil => exact absurd ((collectInvalid_eq_nil_iff _ _).mp hcol) h
    | cons a as =>
      refine ⟨a :: as, ?_⟩
      simp only [validateSqlColumns, hcol]
  · intro inv herr t c
    cases hcol : collectInvalidColumns q (normalizeSchema table_columns) with
    | nil =>
      simp only [validateSqlColumns, hcol] at herr
      exact Except.noConfusion herr
    | cons a as =>
      simp only [validateSqlColumns, hcol, Except.error.injEq,
        SqlError.columnError.injEq] at herr
      subst herr
      rw [← hcol, collectInvalidColumns, mem_foldl_addInvalid]
      simp
  · intro sub al rest visible acc
    rfl
  · intro n a rest visible acc hvis
    have hc : visible.contains n = true := (contains_eq_true_iff _ _).mpr hvis
    simp [aliasMapGo, hc, hvis]
  · intro c am hq b1 b2 rest2 hmap
    simp [resolveColumnToBaseTable, hq, hmap]
  · intro c am b hq hmap
    simp [resolveColumnToBaseTable, hq, hmap]
  · intro c am schema hres
    simp [columnViolation, hres]
  · intro c am schema b hres hlk
    simp [columnViolation, hres, hlk]
